import Mathlib

/-!
Verification of the import-parsing and recurrence-scheduling subsystem of the
Academic-Scheduler-Offline repository.

The TypeScript source is shallowly embedded: every definition below mirrors a
function of the source (files `src/app/(tabs)/routine.tsx`, `src/app/import.tsx`,
`src/context/ScheduleContext.tsx`).  JavaScript numbers are modelled as `Int`
(for minute arithmetic, where the source only produces integers) or `Rat` (for
the spreadsheet-time parser, whose inputs can be fractional); `NaN` is modelled
with `Option` (`none` = NaN).  JavaScript strings are Lean `String`s; the
handful of regular expressions in the source are embedded as explicit scanners
over `String.data`.  Effectful notification/storage calls are modelled as
explicit call traces.
-/

namespace Scheduler

/-- The seven canonical weekday names (`DAYS` in `import.tsx`, and the value
set of `DAY_FULL` in `routine.tsx`). -/
def DAYS_FULL : List String :=
  ["Monday", "Tuesday", "Wednesday", "Thursday", "Friday", "Saturday", "Sunday"]

/-- The character class `\d` of the source's regular expressions. -/
def isDigitC (c : Char) : Bool :=
  match c with
  | '0' | '1' | '2' | '3' | '4' | '5' | '6' | '7' | '8' | '9' => true
  | _ => false

/-- Numeric value of a decimal digit character (0 for non-digits; only applied
to characters matched by `\d`). -/
def digitVal (c : Char) : Nat :=
  match c with
  | '0' => 0 | '1' => 1 | '2' => 2 | '3' => 3 | '4' => 4
  | '5' => 5 | '6' => 6 | '7' => 7 | '8' => 8 | '9' => 9
  | _ => 0

/-- The whitespace class used to model JavaScript's `\s` / `trim()`. -/
def isWS (c : Char) : Bool :=
  c = ' ' ∨ c = '\t' ∨ c = '\n' ∨ c = '\r' ∨ c = '\x0b' ∨ c = '\x0c'

/-- JavaScript `String.prototype.trim` on a character list. -/
def trimL (cs : List Char) : List Char :=
  ((cs.dropWhile isWS).reverse.dropWhile isWS).reverse

/-- JavaScript `String.prototype.trim`. -/
def trimS (s : String) : String := ⟨trimL s.data⟩

/-- JavaScript `String.prototype.split(sep)` for a one-character separator. -/
def splitOnChar (sep : Char) : List Char → List (List Char)
  | [] => [[]]
  | a :: as =>
    let r := splitOnChar sep as
    if a = sep then [] :: r
    else
      match r with
      | [] => [[a]]
      | h :: t => (a :: h) :: t

/-- Value of a non-empty all-digit character sequence (accumulator form). -/
def digitsValAux (acc : Nat) : List Char → Option Nat
  | [] => some acc
  | c :: cs => if isDigitC c then digitsValAux (acc * 10 + digitVal c) cs else none

/-- Value of a non-empty all-digit character sequence; `none` otherwise. -/
def digitsVal? : List Char → Option Nat
  | [] => none
  | cs => digitsValAux 0 cs

/-- JavaScript `Number(s)` restricted to integer-literal strings: optional
sign, decimal digits, surrounding whitespace; the empty/blank string converts
to 0.  `none` models NaN.  (Fractional, exponential and hexadecimal literals
never arise in the time strings this is applied to and are modelled as NaN.) -/
def jsNumberInt (cs : List Char) : Option Int :=
  let t := trimL cs
  match t with
  | [] => some 0
  | '-' :: rest => (digitsVal? rest).map (fun n => -(n : Int))
  | '+' :: rest => (digitsVal? rest).map (fun n => (n : Int))
  | _ => (digitsVal? t).map (fun n => (n : Int))

/-- `timeToMinutes` (routine.tsx:75 and ScheduleContext.tsx:41):
`const [h, m] = t.split(':').map(Number); return h * 60 + m;`.
`none` models a NaN result. -/
def timeToMinutes? (t : String) : Option Int := do
  let parts := splitOnChar ':' t.data
  let h ← match parts[0]? with | some cs => jsNumberInt cs | none => none
  let m ← match parts[1]? with | some cs => jsNumberInt cs | none => none
  pure (h * 60 + m)

/-- `validTime` (routine.tsx:80): the regular expression `^(\d{2}):(\d{2})$`
plus the range checks `0 ≤ hh ≤ 23`, `0 ≤ mm ≤ 59`. -/
def validTime (s : String) : Bool :=
  match s.data with
  | [h1, h2, c, m1, m2] =>
    c = ':' && isDigitC h1 && isDigitC h2 && isDigitC m1 && isDigitC m2 &&
    decide (10 * digitVal h1 + digitVal h2 ≤ 23) &&
    decide (10 * digitVal m1 + digitVal m2 ≤ 59)
  | _ => false

/-- `String(n).padStart(2, '0')` for `n ≤ 99` (the only inputs produced by
`toHHMM`). -/
def pad2 (n : Nat) : String := ⟨[Nat.digitChar (n / 10), Nat.digitChar (n % 10)]⟩

/-- `toHHMM` (routine.tsx:120): wraps with `((m % 1440) + 1440) % 1440`
(JavaScript `%` is truncated remainder, i.e. `Int.tmod`) and renders
zero-padded `HH:MM`. -/
def toHHMM (totalMinutes : Int) : String :=
  let mins := ((totalMinutes.tmod 1440) + 1440).tmod 1440
  let m := mins.toNat
  pad2 (m / 60) ++ ":" ++ pad2 (m % 60)

/-- `getDayNumber` (routine.tsx:259 and ScheduleContext.tsx:46):
calendar index, Sunday = 0 .. Saturday = 6, unknown = -1. -/
def getDayNumber (day : String) : Int :=
  if day = "Sunday" then 0
  else if day = "Monday" then 1
  else if day = "Tuesday" then 2
  else if day = "Wednesday" then 3
  else if day = "Thursday" then 4
  else if day = "Friday" then 5
  else if day = "Saturday" then 6
  else -1

/-- The trigger descriptor built by `getWeeklyTrigger` (routine.tsx:279). -/
structure CalendarTrigger where
  weekday : Nat
  hour : Int
  minute : Int
  repeats : Bool
  deriving Repr, DecidableEq

/-- The `while (mins < 0)` wraparound loop of `getWeeklyTrigger`
(routine.tsx:285-288). -/
def wrapLoop (mins : Int) (d : Nat) : Int × Nat :=
  if mins < 0 then wrapLoop (mins + 1440) ((d + 6) % 7) else (mins, d)
  termination_by (-mins).toNat
  decreasing_by omega

/-- `getWeeklyTrigger` (routine.tsx:279-295).  An unparseable time string
would propagate NaN into the trigger fields in the source; such inputs are
modelled as `none` (every claim constrains the time to a valid `HH:MM`). -/
def getWeeklyTrigger (day time : String) (offsetMins : Int) : Option CalendarTrigger :=
  let dayNum := getDayNumber day
  if dayNum < 0 then none
  else
    match timeToMinutes? time with
    | none => none
    | some t =>
      let p := wrapLoop (t - offsetMins) dayNum.toNat
      let hour := p.1.fdiv 60
      let minute := p.1.tmod 60
      let weekday := if p.2 = 0 then 1 else p.2 + 1
      some { weekday := weekday, hour := hour, minute := minute, repeats := true }

/-! ### Supporting lemmas about the character-level time parser -/

theorem isDigitC_facts {c : Char} (h : isDigitC c = true) :
    digitVal c ≤ 9 ∧ c ≠ ':' ∧ c ≠ '-' ∧ c ≠ '+' ∧ isWS c = false ∧
      Nat.digitChar (digitVal c) = c := by
  unfold isDigitC at h
  split at h <;> simp_all <;> decide

theorem splitOnChar_time {c0 c1 c3 c4 : Char}
    (h0 : c0 ≠ ':') (h1 : c1 ≠ ':') (h3 : c3 ≠ ':') (h4 : c4 ≠ ':') :
    splitOnChar ':' [c0, c1, ':', c3, c4] = [[c0, c1], [c3, c4]] := by
  simp [splitOnChar, h0, h1, h3, h4]

theorem jsNumberInt_two_digits {a b : Char}
    (ha : isDigitC a = true) (hb : isDigitC b = true) :
    jsNumberInt [a, b] = some ((10 * digitVal a + digitVal b : Nat) : Int) := by
  obtain ⟨la, -, hna, hpa, hwa, -⟩ := isDigitC_facts ha
  obtain ⟨lb, -, -, -, hwb, -⟩ := isDigitC_facts hb
  simp [jsNumberInt, trimL, hwa, hwb, digitsVal?, digitsValAux, ha, hb, hna, hpa]
  ring

theorem validTime_spec {s : String} (h : validTime s = true) :
    ∃ c0 c1 c3 c4 : Char, s.data = [c0, c1, ':', c3, c4] ∧
      isDigitC c0 = true ∧ isDigitC c1 = true ∧ isDigitC c3 = true ∧ isDigitC c4 = true ∧
      10 * digitVal c0 + digitVal c1 ≤ 23 ∧ 10 * digitVal c3 + digitVal c4 ≤ 59 ∧
      timeToMinutes? s =
        some (((10 * digitVal c0 + digitVal c1) * 60 + (10 * digitVal c3 + digitVal c4) : Nat)) := by
  unfold validTime at h
  split at h
  case h_2 => exact absurd h (by simp)
  case h_1 c0 c1 c c3 c4 heq =>
    simp only [Bool.and_eq_true, decide_eq_true_eq] at h
    obtain ⟨⟨⟨⟨⟨⟨hc, h0⟩, h1⟩, h3⟩, h4⟩, hh⟩, hm⟩ := h
    subst hc
    refine ⟨c0, c1, c3, c4, heq, h0, h1, h3, h4, hh, hm, ?_⟩
    have n0 := (isDigitC_facts h0).2.1
    have n1 := (isDigitC_facts h1).2.1
    have n3 := (isDigitC_facts h3).2.1
    have n4 := (isDigitC_facts h4).2.1
    simp [timeToMinutes?, heq, splitOnChar_time n0 n1 n3 n4,
      jsNumberInt_two_digits h0 h1, jsNumberInt_two_digits h3 h4]

theorem tmod_wrap_eq {x : Int} (h0 : 0 ≤ x) (h1 : x < 1440) :
    ((x.tmod 1440) + 1440).tmod 1440 = x := by
  rw [Int.tmod_eq_emod h0 (by norm_num), Int.tmod_eq_emod (by omega) (by norm_num)]
  omega

theorem toHHMM_roundtrip {s : String} {t : Int}
    (hv : validTime s = true) (ht : timeToMinutes? s = some t) : toHHMM t = s := by
  obtain ⟨c0, c1, c3, c4, hdata, d0, d1, d3, d4, hh23, hm59, htm⟩ := validTime_spec hv
  rw [htm] at ht
  injection ht with ht
  subst ht
  have f0 := isDigitC_facts d0
  have f1 := isDigitC_facts d1
  have f3 := isDigitC_facts d3
  have f4 := isDigitC_facts d4
  set h := 10 * digitVal c0 + digitVal c1 with hh
  set m := 10 * digitVal c3 + digitVal c4 with hm
  have hlt : ((h * 60 + m : Nat) : Int) < 1440 := by omega
  have hge : (0 : Int) ≤ ((h * 60 + m : Nat) : Int) := by positivity
  have e0 : Nat.digitChar ((h * 60 + m) / 60 / 10) = c0 := by
    rw [show (h * 60 + m) / 60 / 10 = digitVal c0 from by omega]; exact f0.2.2.2.2.2
  have e1 : Nat.digitChar ((h * 60 + m) / 60 % 10) = c1 := by
    rw [show (h * 60 + m) / 60 % 10 = digitVal c1 from by omega]; exact f1.2.2.2.2.2
  have e3 : Nat.digitChar ((h * 60 + m) % 60 / 10) = c3 := by
    rw [show (h * 60 + m) % 60 / 10 = digitVal c3 from by omega]; exact f3.2.2.2.2.2
  have e4 : Nat.digitChar ((h * 60 + m) % 60 % 10) = c4 := by
    rw [show (h * 60 + m) % 60 % 10 = digitVal c4 from by omega]; exact f4.2.2.2.2.2
  have : toHHMM ((h * 60 + m : Nat) : Int) = ⟨[c0, c1, ':', c3, c4]⟩ := by
    unfold toHHMM
    rw [tmod_wrap_eq hge hlt]
    simp only [Int.toNat_ofNat, Int.toNat_natCast]
    rw [pad2, pad2, e0, e1, e3, e4]
    rfl
  rw [this]
  cases s with
  | mk data => simp_all

theorem wrapLoop_spec : ∀ (n : Nat) (m : Int) (d : Nat), (-m).toNat ≤ n → d < 7 →
    wrapLoop m d =
      (m + 1440 * (((-m).toNat + 1439) / 1440 : Nat),
       (d + 6 * (((-m).toNat + 1439) / 1440)) % 7) := by
  intro n
  induction n with
  | zero =>
    intro m d h0 hd
    rw [wrapLoop]
    simp only [if_neg (by omega : ¬ m < 0)]
    have : ((-m).toNat + 1439) / 1440 = 0 := by omega
    rw [this]
    simp [Nat.mod_eq_of_lt hd]
  | succ n ih =>
    intro m d h0 hd
    by_cases hm : m < 0
    · rw [wrapLoop]
      simp only [if_pos hm]
      rw [ih (m + 1440) ((d + 6) % 7) (by omega) (by omega)]
      have hk : (((-m).toNat + 1439) / 1440 : Nat) = ((-(m + 1440)).toNat + 1439) / 1440 + 1 := by
        omega
      refine Prod.ext ?_ ?_
      · show m + 1440 + 1440 * _ = m + 1440 * _
        rw [hk]; push_cast; ring
      · show ((d + 6) % 7 + 6 * _) % 7 = (d + 6 * _) % 7
        rw [hk]; omega
    · rw [wrapLoop]
      simp only [if_neg hm]
      have : ((-m).toNat + 1439) / 1440 = 0 := by omega
      rw [this]
      simp [Nat.mod_eq_of_lt hd]

theorem getDayNumber_mem {day : String} (h : day ∈ DAYS_FULL) :
    0 ≤ getDayNumber day ∧ (getDayNumber day).toNat < 7 := by
  fin_cases h <;> decide

/-- C1: for every item whose `day` is one of the 7 canonical weekday names,
whose `time` is a valid `HH:MM` string and for every non-negative offset,
`getWeeklyTrigger` returns a repeating descriptor obtained by subtracting the
offset from the minutes-since-midnight of the time, wrapping negative minute
counts by whole days while stepping the weekday index back (modulo 7), and
mapping the final 0-based weekday index `i` to the service convention
`if i = 0 then 1 else i + 1`.  The closed form below is the result of that
wraparound loop: `k` is the number of day-steps taken. -/
theorem C1_getWeeklyTrigger_spec (day time : String) (off t : Nat)
    (hday : day ∈ DAYS_FULL) (htime : validTime time = true)
    (ht : timeToMinutes? time = some (t : Int)) :
    getWeeklyTrigger day time (off : Int) =
      some { weekday := if (((getDayNumber day).toNat + 6 * ((off - t + 1439) / 1440)) % 7) = 0
                        then 1
                        else ((getDayNumber day).toNat + 6 * ((off - t + 1439) / 1440)) % 7 + 1,
             hour := ((t + 1440 * ((off - t + 1439) / 1440) - off) / 60 : Nat),
             minute := ((t + 1440 * ((off - t + 1439) / 1440) - off) % 60 : Nat),
             repeats := true } := by
  obtain ⟨hge, hlt⟩ := getDayNumber_mem hday
  unfold getWeeklyTrigger
  rw [if_neg (by omega), ht]
  dsimp only
  rw [wrapLoop_spec ((-(((t : Nat) : Int) - (off : Nat))).toNat) _ _ le_rfl hlt]
  have hk : ((-(((t : Nat) : Int) - ((off : Nat) : Int))).toNat + 1439) / 1440
      = (off - t + 1439) / 1440 := by omega
  set k := (off - t + 1439) / 1440 with hkdef
  have hM : ((t : Nat) : Int) - off + 1440 * (k : Nat) = ((t + 1440 * k - off : Nat) : Int) := by
    have : 1440 * k + t ≥ off := by omega
    omega
  simp only [hk, hM]
  have hfd : ((t + 1440 * k - off : Nat) : Int).fdiv 60 = ((t + 1440 * k - off) / 60 : Nat) := by
    rw [Int.fdiv_eq_ediv _ (by norm_num)]
    omega
  have htm : ((t + 1440 * k - off : Nat) : Int).tmod 60 = ((t + 1440 * k - off) % 60 : Nat) := by
    rw [Int.tmod_eq_emod (by positivity) (by norm_num)]
    omega
  rw [hfd, htm]

/-- Witness for C1: the two concrete examples of the claim.  Monday 09:00 with
a 15-minute lead gives weekday 2, 08:45; Sunday 00:10 with a 30-minute lead
wraps into Saturday (weekday 7) 23:40. -/
theorem C1_getWeeklyTrigger_spec_witness :
    getWeeklyTrigger "Monday" "09:00" 15 =
      some { weekday := 2, hour := 8, minute := 45, repeats := true } ∧
    getWeeklyTrigger "Sunday" "00:10" 30 =
      some { weekday := 7, hour := 23, minute := 40, repeats := true } := by
  constructor
  · have h := C1_getWeeklyTrigger_spec "Monday" "09:00" 15 540 (by decide) (by decide) (by decide)
    norm_num at h
    rw [h]
    decide
  · have h := C1_getWeeklyTrigger_spec "Sunday" "00:10" 30 10 (by decide) (by decide) (by decide)
    norm_num at h
    rw [h]
    decide

/-- C9: for every valid zero-padded `HH:MM` string, converting to minutes
since midnight (`timeToMinutes`) and back (`toHHMM`) is the identity, and
`toHHMM` wraps out-of-range inputs modulo 1440, so `toHHMM (-30) = "23:30"`. -/
theorem C9_time_roundtrip :
    (∀ (s : String) (t : Int), validTime s = true → timeToMinutes? s = some t → toHHMM t = s)
    ∧ toHHMM (-30) = "23:30" := by
  constructor
  · intro s t hv ht
    exact toHHMM_roundtrip hv ht
  · decide

/-- Witness for C9 at the concrete valid time string `"23:30"`. -/
theorem C9_time_roundtrip_witness :
    validTime "23:30" = true ∧ timeToMinutes? "23:30" = some 1410 ∧ toHHMM 1410 = "23:30" :=
  ⟨by decide, by decide, C9_time_roundtrip.1 "23:30" 1410 (by decide) (by decide)⟩

/-! ### The lecture-path scheduler (`src/context/ScheduleContext.tsx`) -/

/-- A stored lecture (`Lecture` in `lib/database`). -/
structure Lecture where
  id : Nat
  day : String
  subject : String
  room : String
  teacher : String
  startTime : String
  endTime : String
  reminderEnabled : Nat
  deriving Repr, DecidableEq

/-- The weekly trigger built by `scheduleNotification`
(ScheduleContext.tsx:85-90).  `Option Int` models a JavaScript number that
may be NaN. -/
structure WeeklyTrigger where
  weekday : Int
  hour : Option Int
  minute : Option Int
  deriving Repr, DecidableEq

/-- A call issued to the notification service by the lecture path. -/
inductive LectureCall where
  | cancel (identifier : String)
  | schedule (identifier : String) (trigger : WeeklyTrigger)
  deriving Repr, DecidableEq

/-- JavaScript `x < 0` where `x` may be NaN (`NaN < 0` is `false`). -/
def optLt0 : Option Int → Bool
  | some v => decide (v < 0)
  | none => false

/-- `scheduleNotification` (ScheduleContext.tsx:62-93), with the permission
request abstracted into the boolean `granted` and the effects recorded as a
call trace.  The result is the identifier returned by the service, `none`
when the function returns null. -/
def scheduleNotification (granted : Bool) (lecture : Lecture) (leadTime : Int) :
    List LectureCall × Option String :=
  if ¬ granted then ([], none)
  else
    let dayNum := getDayNumber lecture.day
    if dayNum < 0 then ([], none)
    else
      let startMins := timeToMinutes? lecture.startTime
      let notifyMins := startMins.map (fun v => v - leadTime)
      let notifyHour := notifyMins.map (fun v => v.fdiv 60)
      let notifyMinute := notifyMins.map (fun v => v.tmod 60)
      if optLt0 notifyHour || optLt0 notifyMinute then ([], none)
      else
        let ident := "lecture-" ++ Nat.repr lecture.id
        ([LectureCall.cancel ident,
          LectureCall.schedule ident
            { weekday := if dayNum = 0 then 1 else dayNum + 1,
              hour := notifyHour, minute := notifyMinute }],
         some ident)

/-- C4: for every lecture whose start time (in minutes since midnight) is
strictly below the lead time, the lecture-path `scheduleNotification` returns
null and issues no notification call at all — in particular no schedule call
and no wraparound into the previous weekday, unlike the routine path. -/
theorem C4_scheduleNotification_negative_lead (granted : Bool) (lecture : Lecture)
    (leadTime t : Int) (ht : timeToMinutes? lecture.startTime = some t)
    (hlt : t < leadTime) :
    scheduleNotification granted lecture leadTime = ([], none) := by
  cases granted with
  | false => simp [scheduleNotification]
  | true =>
    by_cases hd : getDayNumber lecture.day < 0
    · simp [scheduleNotification, hd]
    · have hneg : (t - leadTime).fdiv 60 < 0 := by
        rw [Int.fdiv_eq_ediv _ (by norm_num)]
        exact Int.ediv_neg' (by omega) (by norm_num)
      simp [scheduleNotification, hd, ht, optLt0, hneg]

/-- Witness for C4: a lecture starting at 00:05 with a 10-minute lead. -/
theorem C4_scheduleNotification_negative_lead_witness :
    scheduleNotification true
      { id := 1, day := "Monday", subject := "Algebra", room := "CR-1",
        teacher := "TBA", startTime := "00:05", endTime := "01:00",
        reminderEnabled := 1 } 10 = ([], none) :=
  C4_scheduleNotification_negative_lead true _ 10 5 (by decide) (by decide)

/-! ### The spreadsheet-time parser (`routine.tsx:127-181`) -/

/-- A JavaScript number: a finite double (modelled as an exact rational),
one of the two infinities, or NaN.  Finite values are exact rationals: a
literal whose IEEE-754 value would round or overflow is modelled by its
exact value, which agrees with the code on everything the importer
observes in the claims' domains. -/
inductive JsNum where
  | fin (q : ℚ)
  | posInf
  | negInf
  | nan
  deriving Repr, DecidableEq

/-- A cell value of a row-oriented import (`unknown` in the source): the
shapes the code distinguishes via `typeof` / `instanceof`. -/
inductive CellValue where
  | str (s : String)
  | num (n : JsNum)
  | boolean (b : Bool)
  | date (hours minutes : Nat)
  deriving Repr, DecidableEq

/-- JavaScript number-to-string coercion.  Exact for integers and for the
non-finite values (`"Infinity"`, `"-Infinity"`, `"NaN"`); other finite
numbers are rendered `"<int>.<den>"`, which agrees with JavaScript on
everything the importer observes about such strings (they are non-empty,
are no weekday name, and do not parse as a time). -/
def jsNumToString (n : JsNum) : String :=
  match n with
  | .fin q => if q.den = 1 then Int.repr q.num else Int.repr q.num ++ "." ++ Nat.repr q.den
  | .posInf => "Infinity"
  | .negInf => "-Infinity"
  | .nan => "NaN"

/-- JavaScript `String(v)` for a cell value.  A `Date` stringifies to a long
textual form; only its non-emptiness and non-weekday-ness are observed. -/
def jsToString : CellValue → String
  | .str s => s
  | .num n => jsNumToString n
  | .boolean b => if b then "true" else "false"
  | .date h m => "[Date " ++ pad2 h ++ ":" ++ pad2 m ++ "]"

/-- JavaScript `Math.round` (round half toward positive infinity). -/
def jsRound (q : ℚ) : Int := ⌊q + 1 / 2⌋

/-- Numeric value of a digit run (most significant first). -/
def natOfDigits (cs : List Char) : Nat := cs.foldl (fun a c => a * 10 + digitVal c) 0

/-- Octal digit test (`/[0-7]/`). -/
def isOctalC (c : Char) : Bool := decide ('0' ≤ c ∧ c ≤ '7')

/-- `parseInt(oct, 8)` on a string of octal digits. -/
def octValue (cs : List Char) : Nat := cs.foldl (fun a c => 8 * a + digitVal c) 0

/-- Hexadecimal digit test (`[0-9a-fA-F]`). -/
def isHexDigitC (c : Char) : Bool :=
  isDigitC c || decide ('a' ≤ c ∧ c ≤ 'f') || decide ('A' ≤ c ∧ c ≤ 'F')

/-- Value of one hexadecimal digit. -/
def hexVal (c : Char) : Nat :=
  if isDigitC c then digitVal c
  else match c with
  | 'a' => 10
  | 'A' => 10
  | 'b' => 11
  | 'B' => 11
  | 'c' => 12
  | 'C' => 12
  | 'd' => 13
  | 'D' => 13
  | 'e' => 14
  | 'E' => 14
  | 'f' => 15
  | 'F' => 15
  | _ => 0

/-- The optional exponent tail of a decimal number literal
(`[eE][+-]?digits`); `none` is NaN (trailing garbage). -/
def applyExp (mant : ℚ) : List Char → Option ℚ
  | [] => some mant
  | e :: r =>
    if e = 'e' ∨ e = 'E' then
      let esgn : Bool := r.head? = some '-'
      let ebody := if r.head? = some '-' ∨ r.head? = some '+' then r.tail else r
      if ebody ≠ [] ∧ ebody.all isDigitC then
        some (if esgn then mant / (10 : ℚ) ^ natOfDigits ebody
              else mant * (10 : ℚ) ^ natOfDigits ebody)
      else none
    else none

/-- An unsigned decimal number literal: digits, an optional fraction (at
least one digit on one side of the dot) and an optional exponent, nothing
else; `none` is NaN. -/
def parseDecLit (cs : List Char) : Option ℚ :=
  let ip := cs.takeWhile isDigitC
  let r1 := cs.dropWhile isDigitC
  match r1 with
  | '.' :: fr =>
    let fp := fr.takeWhile isDigitC
    let r2 := fr.dropWhile isDigitC
    if ip = [] ∧ fp = [] then none
    else applyExp ((natOfDigits ip : ℚ) + (natOfDigits fp : ℚ) / (10 : ℚ) ^ fp.length) r2
  | _ => if ip = [] then none else applyExp ((natOfDigits ip : ℚ)) r1

/-- The signed part of `Number(s)`: an optional sign followed by either the
literal `Infinity` or a decimal number literal.  A sign is not legal before
a hexadecimal, octal or binary literal, so those take the decimal path here
and convert to NaN. -/
def jsNumberSigned (t : List Char) : JsNum :=
  let sgn : Bool := t.head? = some '-'
  let body := if t.head? = some '-' ∨ t.head? = some '+' then t.tail else t
  if body = "Infinity".data then (if sgn then .negInf else .posInf)
  else
    match parseDecLit body with
    | some q => .fin (if sgn then -q else q)
    | none => .nan

/-- JavaScript `Number(s)` on a string: trim; blank converts to 0; an
unsigned `0x`/`0o`/`0b` radix literal converts in that base; otherwise an
optionally signed decimal literal or `Infinity`; everything else is NaN. -/
def jsNumber (s : String) : JsNum :=
  let t := trimL s.data
  match t with
  | [] => .fin 0
  | '0' :: x :: ds =>
    if x = 'x' ∨ x = 'X' then
      if ds ≠ [] ∧ ds.all isHexDigitC then
        .fin ((ds.foldl (fun a c => 16 * a + hexVal c) 0 : Nat) : ℚ)
      else .nan
    else if x = 'o' ∨ x = 'O' then
      if ds ≠ [] ∧ ds.all isOctalC then .fin ((octValue ds : Nat) : ℚ) else .nan
    else if x = 'b' ∨ x = 'B' then
      if ds ≠ [] ∧ ds.all (fun c => c = '0' ∨ c = '1') then
        .fin ((ds.foldl (fun a c => 2 * a + digitVal c) 0 : Nat) : ℚ)
      else .nan
    else jsNumberSigned t
  | _ => jsNumberSigned t

/-- The finite-number branch of `parseSpreadsheetTime` (routine.tsx:134-146). -/
def parseSpreadsheetTimeNum (q : ℚ) : String :=
  if 0 ≤ q ∧ q < 1 then toHHMM (jsRound (q * (24 * 60)))
  else
    let frac := q - ⌊q⌋
    if frac > 0 then toHHMM (jsRound (frac * (24 * 60)))
    else if 0 ≤ q ∧ q ≤ 23 then toHHMM (jsRound (q * 60))
    else ""

/-- The 12-hour scanner of `parseSpreadsheetTime`: the anchored regular
expression `^(\d{1,2})(?::(\d{2}))?(?::\d{2})?\s*([AP]M)$/i`
(routine.tsx:158).  Returns hour digits value, minutes (0 when the group is
absent) and whether the meridiem is PM. -/
def scanAmPm (cs : List Char) : Option (Nat × Nat × Bool) :=
  let step1 : Option (Nat × List Char) :=
    match cs with
    | c1 :: c2 :: rest =>
      if isDigitC c1 then
        if isDigitC c2 then some (10 * digitVal c1 + digitVal c2, rest)
        else some (digitVal c1, c2 :: rest)
      else none
    | [c1] => if isDigitC c1 then some (digitVal c1, []) else none
    | [] => none
  match step1 with
  | none => none
  | some (h, rest1) =>
    let grab2 : List Char → Option Nat × List Char := fun l =>
      match l with
      | ':' :: a :: b :: r =>
        if isDigitC a ∧ isDigitC b then (some (10 * digitVal a + digitVal b), r) else (none, l)
      | _ => (none, l)
    let (m?, rest2) := grab2 rest1
    let (_, rest3) := grab2 rest2
    let rest4 := rest3.dropWhile isWS
    match rest4 with
    | [a, m] =>
      if (a = 'A' ∨ a = 'a' ∨ a = 'P' ∨ a = 'p') ∧ (m = 'M' ∨ m = 'm') then
        some (h, m?.getD 0, a = 'P' ∨ a = 'p')
      else none
    | _ => none

/-- The plain scanner of `parseSpreadsheetTime`: the anchored regular
expression `^(\d{1,2}):(\d{2})(?::\d{2})?$` (routine.tsx:171). -/
def scanPlain (cs : List Char) : Option (Nat × Nat) :=
  let step1 : Option (Nat × List Char) :=
    match cs with
    | c1 :: c2 :: rest =>
      if isDigitC c1 then
        if isDigitC c2 then some (10 * digitVal c1 + digitVal c2, rest)
        else some (digitVal c1, c2 :: rest)
      else none
    | [c1] => if isDigitC c1 then some (digitVal c1, []) else none
    | [] => none
  match step1 with
  | none => none
  | some (h, rest1) =>
    match rest1 with
    | ':' :: a :: b :: r =>
      if isDigitC a ∧ isDigitC b then
        match r with
        | [] => some (h, 10 * digitVal a + digitVal b)
        | ':' :: c :: d :: [] =>
          if isDigitC c ∧ isDigitC d then some (h, 10 * digitVal a + digitVal b) else none
        | _ => none
      else none
    | _ => none

/-- The tail of the string branch after the `Number` recursion declined
(routine.tsx:157-180): the 12-hour scanner, then the plain scanner, then
the empty-string sentinel. -/
def spreadRegexTail (raw : String) : String :=
  match scanAmPm raw.data with
  | some (h, m, isPM) =>
    let h2 := if isPM then (if h < 12 then h + 12 else h) else (if h = 12 then 0 else h)
    toHHMM ((h2 * 60 + m : Nat) : Int)
  | none =>
    match scanPlain raw.data with
    | some (h, m) =>
      if h ≤ 23 ∧ m ≤ 59 then toHHMM ((h * 60 + m : Nat) : Int) else ""
    | none => ""

/-- The string path of `parseSpreadsheetTime` (routine.tsx:148-180) on the
trimmed raw string, with the recursive call `parseSpreadsheetTime(asNum)`
abstracted as `recur` (taken when `Number(raw)` is not NaN). -/
def spreadStrPath (recur : JsNum → Option String) (raw : String) : Option String :=
  if raw = "" then some ""
  else if validTime raw then some raw
  else
    match jsNumber raw with
    | .nan => some (spreadRegexTail raw)
    | n => recur n

/-- `parseSpreadsheetTime` (routine.tsx:127-181) as a step-indexed function:
the fuel counts invocation depth, and `none` means the recursion did not
finish within it.  The only self-call is the source's
`return parseSpreadsheetTime(asNum)`; a non-finite number skips the numeric
branch and takes the string path on its stringification, exactly as the
source does, so the function re-enters itself forever on `±Infinity`
(`none` at every fuel), modelling the stack-overflow throw. -/
def parseSpreadsheetTimeF : Nat → Option CellValue → Option String
  | 0, _ => none
  | fuel + 1, v =>
    match v with
    | none => some ""
    | some (.date h m) => some (toHHMM ((h * 60 + m : Nat) : Int))
    | some (.num (.fin q)) => some (parseSpreadsheetTimeNum q)
    | some w =>
      spreadStrPath (fun n => parseSpreadsheetTimeF fuel (some (.num n))) (trimS (jsToString w))

/-- The parser at the depth every terminating input needs (2 invocations;
3 is one spare): `none` means the source diverges on the input. -/
def parseSpreadsheetTime (v : Option CellValue) : Option String :=
  parseSpreadsheetTimeF 3 v

theorem spreadF_posInf (fuel : Nat) :
    parseSpreadsheetTimeF fuel (some (.num .posInf)) = none := by
  induction fuel with
  | zero => rfl
  | succ fuel ih =>
    show spreadStrPath (fun n => parseSpreadsheetTimeF fuel (some (.num n)))
      (trimS (jsToString (.num .posInf))) = none
    have h1 : trimS (jsToString (CellValue.num JsNum.posInf)) = "Infinity" := rfl
    rw [h1]
    unfold spreadStrPath
    rw [if_neg (by decide), if_neg (by decide)]
    have h2 : jsNumber "Infinity" = JsNum.posInf := rfl
    rw [h2]
    exact ih

theorem spreadF_negInf (fuel : Nat) :
    parseSpreadsheetTimeF fuel (some (.num .negInf)) = none := by
  induction fuel with
  | zero => rfl
  | succ fuel ih =>
    show spreadStrPath (fun n => parseSpreadsheetTimeF fuel (some (.num n)))
      (trimS (jsToString (.num .negInf))) = none
    have h1 : trimS (jsToString (CellValue.num JsNum.negInf)) = "-Infinity" := rfl
    rw [h1]
    unfold spreadStrPath
    rw [if_neg (by decide), if_neg (by decide)]
    have h2 : jsNumber "-Infinity" = JsNum.negInf := rfl
    rw [h2]
    exact ih

/-- **C6**: the claimed branch behavior holds for every finite numeric input
(fraction of a day on `[0,1)`, day-fraction on a nonzero fractional part,
whole hour on an integer in `[0,23]`, the empty sentinel otherwise, with
`0.5 ↦ "12:00"` and `0.70833 ↦ "17:00"`), but the parser is NOT total: on
`±Infinity` the numeric branch is skipped and the string path re-enters the
parser with the same value, so it never returns at any recursion depth —
the stack-overflow throw the claim's "never throws" rules out. -/
theorem C6_parseSpreadsheetTime_finite_and_divergence (q : ℚ) :
    (0 ≤ q ∧ q < 1 → parseSpreadsheetTime (some (.num (.fin q))) =
      some (toHHMM (jsRound (q * (24 * 60))))) ∧
    (Int.fract q > 0 → parseSpreadsheetTime (some (.num (.fin q))) =
      some (toHHMM (jsRound (Int.fract q * (24 * 60))))) ∧
    (q.den = 1 → 0 ≤ q → q ≤ 23 → parseSpreadsheetTime (some (.num (.fin q))) =
      some (toHHMM (jsRound (q * 60)))) ∧
    (q.den = 1 → ¬ (0 ≤ q ∧ q ≤ 23) →
      parseSpreadsheetTime (some (.num (.fin q))) = some "") ∧
    parseSpreadsheetTime (some (.num (.fin (1 / 2)))) = some "12:00" ∧
    parseSpreadsheetTime (some (.num (.fin (70833 / 100000)))) = some "17:00" ∧
    (∀ fuel, parseSpreadsheetTimeF fuel (some (.num .posInf)) = none) ∧
    (∀ fuel, parseSpreadsheetTimeF fuel (some (.num .negInf)) = none) := by
  have hred : ∀ r : ℚ, parseSpreadsheetTime (some (.num (.fin r))) =
      some (parseSpreadsheetTimeNum r) := fun r => rfl
  refine ⟨?_, ?_, ?_, ?_, ?_, ?_, spreadF_posInf, spreadF_negInf⟩
  · intro ⟨h0, h1⟩
    rw [hred]
    refine congrArg some ?_
    simp [parseSpreadsheetTimeNum, h0, h1]
  · intro hf
    rw [hred]
    refine congrArg some ?_
    by_cases hb : 0 ≤ q ∧ q < 1
    · have hfl : ⌊q⌋ = 0 := by
        rw [Int.floor_eq_zero_iff]
        exact ⟨hb.1, hb.2⟩
      have : Int.fract q = q := by
        unfold Int.fract
        rw [hfl]
        simp
      simp [parseSpreadsheetTimeNum, hb.1, hb.2, this]
    · simp only [parseSpreadsheetTimeNum, if_neg hb]
      have : q - ↑⌊q⌋ = Int.fract q := by unfold Int.fract; ring
      rw [this, if_pos hf]
  · intro hden h0 h23
    rw [hred]
    refine congrArg some ?_
    have hnum : (q.num : ℚ) = q := by
      rw [← Rat.den_eq_one_iff]
      exact hden
    have hfl : (⌊q⌋ : ℚ) = q := by
      rw [← hnum, Int.floor_intCast]
    have hfr : q - ↑⌊q⌋ = 0 := by rw [hfl]; ring
    by_cases hb : 0 ≤ q ∧ q < 1
    · have hq0 : q = 0 := by
        have h1 : (0:ℚ) ≤ ↑⌊q⌋ := by rw [hfl]; exact hb.1
        have h2 : (⌊q⌋:ℚ) < 1 := by rw [hfl]; exact hb.2
        have : ⌊q⌋ = 0 := by
          exact_mod_cast le_antisymm
            (by exact_mod_cast Int.lt_add_one_iff.mp (by exact_mod_cast h2))
            (by exact_mod_cast h1)
        rw [← hfl, this]
        norm_num
      subst hq0
      norm_num [parseSpreadsheetTimeNum]
    · simp only [parseSpreadsheetTimeNum, if_neg hb]
      rw [if_neg (by rw [hfr]; norm_num), if_pos ⟨h0, h23⟩]
  · intro hden hb23
    rw [hred]
    refine congrArg some ?_
    have hnum : (q.num : ℚ) = q := by
      rw [← Rat.den_eq_one_iff]
      exact hden
    have hfl : (⌊q⌋ : ℚ) = q := by
      rw [← hnum, Int.floor_intCast]
    have hfr : q - ↑⌊q⌋ = 0 := by rw [hfl]; ring
    have hb : ¬ (0 ≤ q ∧ q < 1) := by
      intro ⟨ha, hc⟩
      exact hb23 ⟨ha, by linarith⟩
    simp only [parseSpreadsheetTimeNum, if_neg hb]
    rw [if_neg (by rw [hfr]; norm_num), if_neg hb23]
  · rw [hred]
    refine congrArg some ?_
    have h1 : (0:ℚ) ≤ 1/2 := by norm_num
    have h2 : (1/2:ℚ) < 1 := by norm_num
    simp only [parseSpreadsheetTimeNum, h1, h2, and_self, if_true]
    have : jsRound (1 / 2 * (24 * 60) : ℚ) = 720 := by
      unfold jsRound
      norm_num
    rw [this]
    decide
  · rw [hred]
    refine congrArg some ?_
    have h1 : (0:ℚ) ≤ 70833 / 100000 := by norm_num
    have h2 : (70833 / 100000:ℚ) < 1 := by norm_num
    simp only [parseSpreadsheetTimeNum, h1, h2, and_self, if_true]
    have : jsRound (70833 / 100000 * (24 * 60) : ℚ) = 1020 := by
      unfold jsRound
      norm_num
    rw [this]
    decide

/-- Witness for C6 at the fractional day one half, plus the divergence
conjunct instantiated at depth 5. -/
theorem C6_parseSpreadsheetTime_finite_and_divergence_witness :
    parseSpreadsheetTime (some (.num (.fin (1 / 2)))) =
      some (toHHMM (jsRound ((1 / 2 : ℚ) * (24 * 60)))) ∧
    parseSpreadsheetTime (some (.num (.fin (1 / 2)))) = some "12:00" ∧
    parseSpreadsheetTimeF 5 (some (.num .posInf)) = none :=
  ⟨(C6_parseSpreadsheetTime_finite_and_divergence (1 / 2)).1 (by norm_num),
   (C6_parseSpreadsheetTime_finite_and_divergence (1 / 2)).2.2.2.2.1,
   (C6_parseSpreadsheetTime_finite_and_divergence (1 / 2)).2.2.2.2.2.2.1 5⟩

/-! ### The tabular import normalizer (`routine.tsx:94-219`) -/

/-- ASCII lowercase of one character (JavaScript `toLowerCase` restricted to
the ASCII range the importers compare against). -/
def toLowerC (c : Char) : Char :=
  if 'A' ≤ c ∧ c ≤ 'Z' then Char.ofNat (c.toNat + 32) else c

/-- JavaScript `String.prototype.toLowerCase`. -/
def toLowerS (s : String) : String := ⟨s.data.map toLowerC⟩

/-- JavaScript `a <= b` where either side may be NaN (then `false`). -/
def jsLe : Option Int → Option Int → Bool
  | some a, some b => decide (a ≤ b)
  | _, _ => false

/-- An element of the parsed JSON array for the lecture import
(import.tsx:300-319): the six string fields, `none` when absent. -/
structure JsonLectureItem where
  day : Option String
  subject : Option String
  room : Option String
  teacher : Option String
  startTime : Option String
  endTime : Option String
  deriving Repr, DecidableEq

/-- JavaScript truthiness of a possibly missing string field. -/
def truthyS : Option String → Bool
  | some s => s ≠ ""
  | none => false

/-- A lecture as inserted by the import paths (`InsertLecture`). -/
structure InsertLecture where
  day : String
  subject : String
  room : String
  teacher : String
  startTime : String
  endTime : String
  reminderEnabled : Nat
  deriving Repr, DecidableEq

/-- Whether an item passes both checks of the `parseJsonLectures` callback. -/
def goodJsonItem (it : JsonLectureItem) : Bool :=
  truthyS it.day && truthyS it.subject && truthyS it.room && truthyS it.teacher &&
    truthyS it.startTime && truthyS it.endTime && DAYS_FULL.contains (it.day.getD "")

/-- The error message thrown by `parseJsonLectures` for a failing item at
0-based index `i`. -/
def jsonErrMsg (i : Nat) (it : JsonLectureItem) : String :=
  if ¬ (truthyS it.day ∧ truthyS it.subject ∧ truthyS it.room ∧ truthyS it.teacher ∧
        truthyS it.startTime ∧ truthyS it.endTime) then
    "Item " ++ Nat.repr (i + 1) ++ " is missing required fields."
  else
    "Invalid day \"" ++ it.day.getD "" ++ "\" in item " ++ Nat.repr (i + 1) ++ "."

/-- The successful conversion of one item (import.tsx:309-318). -/
def convertJsonItem (it : JsonLectureItem) : InsertLecture :=
  { day := it.day.getD "", subject := it.subject.getD "", room := it.room.getD "",
    teacher := it.teacher.getD "", startTime := it.startTime.getD "",
    endTime := it.endTime.getD "", reminderEnabled := 0 }

/-- The `raw.map(...)` of `parseJsonLectures` with its throwing callback,
carried out left to right from 0-based index `i`. -/
def parseJsonLecturesAux (i : Nat) : List JsonLectureItem → Except String (List InsertLecture)
  | [] => .ok []
  | it :: rest =>
    if ¬ (truthyS it.day ∧ truthyS it.subject ∧ truthyS it.room ∧ truthyS it.teacher ∧
          truthyS it.startTime ∧ truthyS it.endTime) then
      .error ("Item " ++ Nat.repr (i + 1) ++ " is missing required fields.")
    else if ¬ (DAYS_FULL.contains (it.day.getD "") = true) then
      .error ("Invalid day \"" ++ it.day.getD "" ++ "\" in item " ++ Nat.repr (i + 1) ++ ".")
    else
      (parseJsonLecturesAux (i + 1) rest).map (fun l => convertJsonItem it :: l)

/-- `parseJsonLectures` (import.tsx:300-319), at the level of the already
JSON-parsed item array. -/
def parseJsonLectures (items : List JsonLectureItem) : Except String (List InsertLecture) :=
  parseJsonLecturesAux 0 items

/-- `handleImportJson` (import.tsx:351-372): the persistence calls it issues.
A parse error is alerted and nothing is persisted; on success the whole batch
is handed to `importLectures` in one call. -/
def handleImportJsonPersistCalls (items : List JsonLectureItem) : List (List InsertLecture) :=
  match parseJsonLectures items with
  | .error _ => []
  | .ok ls => [ls]

theorem parseJsonLecturesAux_ok : ∀ (items : List JsonLectureItem) (i : Nat)
    (ls : List InsertLecture), parseJsonLecturesAux i items = .ok ls →
    ls = items.map convertJsonItem := by
  intro items
  induction items with
  | nil => intro i ls h; cases h; rfl
  | cons it rest ih =>
    intro i ls h
    unfold parseJsonLecturesAux at h
    split at h
    · cases h
    · split at h
      · cases h
      · cases hrest : parseJsonLecturesAux (i + 1) rest with
        | error m => rw [hrest] at h; cases h
        | ok l' =>
          rw [hrest] at h
          simp only [Except.map] at h
          cases h
          simp [ih (i + 1) l' hrest]

theorem parseJsonLecturesAux_err : ∀ (items : List JsonLectureItem) (i k : Nat)
    (hk : k < items.length),
    (∀ j (hj : j < k), goodJsonItem (items.get ⟨j, hj.trans hk⟩) = true) →
    goodJsonItem (items.get ⟨k, hk⟩) = false →
    parseJsonLecturesAux i items = .error (jsonErrMsg (i + k) (items.get ⟨k, hk⟩)) := by
  intro items
  induction items with
  | nil => intro i k hk; exact absurd hk (by simp)
  | cons it rest ih =>
    intro i k hk hgood hbad
    match k with
    | 0 =>
      simp only [List.get] at hbad ⊢
      unfold parseJsonLecturesAux jsonErrMsg
      by_cases hf : truthyS it.day = true ∧ truthyS it.subject = true ∧
          truthyS it.room = true ∧ truthyS it.teacher = true ∧
          truthyS it.startTime = true ∧ truthyS it.endTime = true
      · have hday : DAYS_FULL.contains (it.day.getD "") = false := by
          simp only [goodJsonItem] at hbad
          cases hcon : DAYS_FULL.contains (it.day.getD "") with
          | false => rfl
          | true =>
            exfalso
            rw [hf.1, hf.2.1, hf.2.2.1, hf.2.2.2.1, hf.2.2.2.2.1, hf.2.2.2.2.2, hcon] at hbad
            simp at hbad
        rw [if_neg (by simpa using hf), if_pos (by rw [hday]; simp),
          if_neg (by simpa using hf)]
      · rw [if_pos (by simpa using hf), if_pos (by simpa using hf)]
    | Nat.succ k =>
      have hgit : goodJsonItem it = true := hgood 0 (by omega)
      simp only [goodJsonItem, Bool.and_eq_true] at hgit
      obtain ⟨⟨⟨⟨⟨⟨t1, t2⟩, t3⟩, t4⟩, t5⟩, t6⟩, tc⟩ := hgit
      unfold parseJsonLecturesAux
      rw [if_neg (by simp [t1, t2, t3, t4, t5, t6]), if_neg (by rw [tc]; simp)]
      have hrec := ih (i + 1) k (by simpa using Nat.lt_of_succ_lt_succ hk)
        (fun j hj => by
          have := hgood (j + 1) (by omega)
          simpa using this)
        (by simpa using hbad)
      rw [hrec]
      simp only [Except.map]
      have : i + 1 + k = i + (k + 1) := by omega
      rw [this]
      rfl


/-- A concrete item with a non-canonical day, used by the C5 witness. -/
def fundayItem : JsonLectureItem :=
  { day := some "Funday", subject := some "Algebra", room := some "CR-1",
    teacher := some "Mr. X", startTime := some "09:00", endTime := some "10:00" }

/-- **C5**: the JSON lecture import fails with a 1-based item-indexed error as
soon as any item misses one of the six required fields (or has it empty) or
has a non-canonical, case-sensitively compared day; the parse completes
before any persistence call, so a failing item persists nothing.  On success
every returned item carries the six input fields and `reminderEnabled = 0`. -/
theorem C5_parseJsonLectures_atomic (items : List JsonLectureItem) :
    (∀ k (hk : k < items.length),
       (∀ j (hj : j < k), goodJsonItem (items.get ⟨j, hj.trans hk⟩) = true) →
       goodJsonItem (items.get ⟨k, hk⟩) = false →
       parseJsonLectures items = .error (jsonErrMsg k (items.get ⟨k, hk⟩)) ∧
       handleImportJsonPersistCalls items = []) ∧
    (∀ ls, parseJsonLectures items = .ok ls → ls = items.map convertJsonItem) := by
  constructor
  · intro k hk hgood hbad
    have h2 : parseJsonLectures items = .error (jsonErrMsg k (items.get ⟨k, hk⟩)) := by
      unfold parseJsonLectures
      simpa using parseJsonLecturesAux_err items 0 k hk hgood hbad
    refine ⟨h2, ?_⟩
    unfold handleImportJsonPersistCalls
    rw [h2]
  · intro ls h
    exact parseJsonLecturesAux_ok items 0 ls h

/-- Witness for C5: a single item with `day = "Funday"` fails the whole
batch with no persistence. -/
theorem C5_parseJsonLectures_atomic_witness :
    parseJsonLectures [fundayItem] = .error "Invalid day \"Funday\" in item 1." ∧
    handleImportJsonPersistCalls [fundayItem] = [] := by
  have h := (C5_parseJsonLectures_atomic [fundayItem]).1 0 (by decide)
    (fun j hj => absurd hj (by omega)) (by decide)
  refine ⟨?_, h.2⟩
  rw [h.1]
  exact congrArg Except.error (by decide)

/-! ### The routine reschedule path (`routine.tsx:297-357`, `563-605`) -/

/-- A stored routine item (`RoutineItem` in routine.tsx:28-39). -/
structure RoutineItem where
  id : String
  title : String
  day : String
  startTime : String
  endTime : String
  notes : String
  done : Bool
  reminderEnabled : Nat
  reminderIds : List String
  reminderId : Option String
  deriving Repr, DecidableEq

/-- A call issued to the notification service by the routine path. -/
inductive NCall where
  | cancel (id : String)
  | schedule (title body : String) (trigger : CalendarTrigger)
  deriving Repr, DecidableEq

/-- `getRoutineNotificationIds` (routine.tsx:297-301); the legacy single id
is used only when truthy (non-empty). -/
def getRoutineNotificationIds (item : RoutineItem) : List String :=
  if item.reminderIds ≠ [] then item.reminderIds
  else
    match item.reminderId with
    | some r => if r ≠ "" then [r] else []
    | none => []

/-- The `.catch(() => {})` wrapper on a cancellation promise. -/
def jsCatchUnit : Except String Unit → Except String Unit
  | .error _ => .ok ()
  | e => e

/-- One `cancelScheduledNotificationAsync(id).catch(() => {})` call, with the
service's failure behavior supplied as the oracle `cancelFails`. -/
def cancelOne (cancelFails : String → Bool) (id : String) : Except String Unit :=
  jsCatchUnit (if cancelFails id then .error ("cancel failed: " ++ id) else .ok ())

/-- `Promise.all` over unit promises: the first rejection, if any. -/
def promiseAllUnit : List (Except String Unit) → Except String Unit
  | [] => .ok ()
  | r :: rs =>
    match r with
    | .error m => .error m
    | .ok _ => promiseAllUnit rs

/-- The cancel calls issued by `cancelRoutineNotifications`
(routine.tsx:303-306). -/
def cancelRoutineNotificationsCalls (item : RoutineItem) : List NCall :=
  (getRoutineNotificationIds item).map NCall.cancel

/-- The aggregate result of `cancelRoutineNotifications`: every individual
failure is already caught, so the surrounding `await` can never reject. -/
def cancelRoutineNotificationsResult (cancelFails : String → Bool)
    (item : RoutineItem) : Except String Unit :=
  promiseAllUnit ((getRoutineNotificationIds item).map (cancelOne cancelFails))

/-- The notification body string of `scheduleRoutineNotifications`
(routine.tsx:312). -/
def routineBody (item : RoutineItem) : String :=
  item.day ++ " " ++ item.startTime ++ " - " ++ item.endTime ++
    (if item.notes ≠ "" then " \u2022 " ++ item.notes else "")

/-- `scheduleRoutineNotifications` (routine.tsx:308-357): the schedule calls
issued (lead, start, end — each only when its trigger is non-null) and the
returned id list (`none` when permission is denied or no call succeeded).
`idGen` supplies the service-generated identifiers in call order. -/
def scheduleRoutineNotifications (granted : Bool) (idGen : Nat → String)
    (item : RoutineItem) (leadMins : Int) : List NCall × Option (List String) :=
  if ¬ granted then ([], none)
  else
    let leadCalls :=
      if leadMins > 0 then
        match getWeeklyTrigger item.day item.startTime leadMins with
        | some tr => [NCall.schedule ("Upcoming routine: " ++ item.title) (routineBody item) tr]
        | none => []
      else []
    let startCalls :=
      match getWeeklyTrigger item.day item.startTime 0 with
      | some tr => [NCall.schedule ("Start now: " ++ item.title) (routineBody item) tr]
      | none => []
    let endCalls :=
      match getWeeklyTrigger item.day item.endTime 0 with
      | some tr => [NCall.schedule ("Ended: " ++ item.title) (routineBody item) tr]
      | none => []
    let calls := leadCalls ++ startCalls ++ endCalls
    let ids := (List.range calls.length).map idGen
    (calls, if ids.length > 0 then some ids else none)

/-- `DAY_FULL[formDay] ?? 'Monday'` (routine.tsx:53-56, 577). -/
def dayFullOf (short : String) : String :=
  match short with
  | "Mon" => "Monday" | "Tue" => "Tuesday" | "Wed" => "Wednesday"
  | "Thu" => "Thursday" | "Fri" => "Friday" | "Sat" => "Saturday"
  | "Sun" => "Sunday" | _ => "Monday"

/-- The editing branch of `saveItem` (routine.tsx:563-605): validations, then
`cancelRoutineNotifications(prev)`, then — with reminders enabled — the
schedule calls for the updated item.  Returns the full notification-call
trace and the stored item; `none` models the early validation returns. -/
def saveItemEdit (granted : Bool) (idGen : Nat → String) (prev : RoutineItem)
    (title formDay startTime endTime notes : String) (reminderEnabled : Bool)
    (leadMins : Int) : Option (List NCall × RoutineItem) :=
  if trimS title = "" then none
  else if ¬ (validTime (trimS startTime) = true ∧ validTime (trimS endTime) = true) then none
  else if jsLe (timeToMinutes? (trimS endTime)) (timeToMinutes? (trimS startTime)) then none
  else
    let day := dayFullOf formDay
    let cancelCalls := cancelRoutineNotificationsCalls prev
    let nextBase : RoutineItem :=
      { prev with
        title := trimS title
        day := day
        startTime := trimS startTime
        endTime := trimS endTime
        notes := trimS notes
        reminderEnabled := if reminderEnabled then 1 else 0
        reminderIds := []
        reminderId := none }
    if reminderEnabled then
      let sched := scheduleRoutineNotifications granted idGen nextBase leadMins
      let ids := sched.2.getD []
      some (cancelCalls ++ sched.1,
        { nextBase with
          reminderIds := ids
          reminderId := ids.head?
          reminderEnabled := if ids.length > 0 then 1 else 0 })
    else
      some (cancelCalls, nextBase)

theorem scheduleRoutineNotifications_no_cancel (granted : Bool) (idGen : Nat → String)
    (item : RoutineItem) (leadMins : Int) :
    ∀ c ∈ (scheduleRoutineNotifications granted idGen item leadMins).1,
      ∀ id, c ≠ NCall.cancel id := by
  unfold scheduleRoutineNotifications
  split
  · simp
  · dsimp only
    intro c hc id
    simp only [List.mem_append] at hc
    rcases hc with (hc | hc) | hc
    · split at hc
      · split at hc <;> simp_all
      · simp at hc
    · split at hc <;> simp_all
    · split at hc <;> simp_all

theorem cancelOne_ok (cancelFails : String → Bool) (id : String) :
    cancelOne cancelFails id = .ok () := by
  unfold cancelOne
  split <;> rfl

theorem cancelRoutineNotificationsResult_ok (cancelFails : String → Bool)
    (item : RoutineItem) : cancelRoutineNotificationsResult cancelFails item = .ok () := by
  unfold cancelRoutineNotificationsResult
  induction getRoutineNotificationIds item with
  | nil => rfl
  | cons hd tl ih =>
    rw [List.map_cons, cancelOne_ok]
    simpa [promiseAllUnit] using ih

/-- C8: when an edited routine item with previously stored reminder ids is
saved with reminders enabled, a cancel call is issued for every prior id
strictly before any schedule call (the trace is all the cancels followed by
schedule calls only), and every cancellation failure is swallowed: the
aggregate cancellation result is `ok` for every failure oracle. -/
theorem C8_saveItem_cancel_before_schedule (granted : Bool) (idGen : Nat → String) (cancelFails : String → Bool)
    (prev : RoutineItem) (title formDay startTime endTime notes : String) (leadMins : Int)
    (ht : trimS title ≠ "")
    (hs : validTime (trimS startTime) = true) (he : validTime (trimS endTime) = true)
    (hlt : jsLe (timeToMinutes? (trimS endTime)) (timeToMinutes? (trimS startTime)) = false) :
    ∃ schedCalls item,
      saveItemEdit granted idGen prev title formDay startTime endTime notes true leadMins
        = some ((getRoutineNotificationIds prev).map NCall.cancel ++ schedCalls, item) ∧
      (∀ c ∈ schedCalls, ∀ id, c ≠ NCall.cancel id) ∧
      cancelRoutineNotificationsResult cancelFails prev = .ok () := by
  simp only [saveItemEdit, ht, hs, he, hlt, Bool.false_eq_true, not_true_eq_false,
    not_false_eq_true, and_self, if_false, if_true, ite_false, ite_true]
  refine ⟨_, _, rfl, ?_, cancelRoutineNotificationsResult_ok cancelFails prev⟩
  exact scheduleRoutineNotifications_no_cancel granted idGen _ leadMins


/-- A concrete previously stored item with two reminder ids (C8 witness). -/
def prevC8 : RoutineItem :=
  { id := "7"
    title := "Old"
    day := "Monday"
    startTime := "07:00"
    endTime := "08:00"
    notes := ""
    done := false
    reminderEnabled := 1
    reminderIds := ["a", "b"]
    reminderId := some "a" }

/-- Witness for C8 at a concrete edit of an item with two stored ids. -/
theorem C8_saveItem_cancel_before_schedule_witness : ∃ schedCalls item,
    saveItemEdit true (fun n => "nid-" ++ Nat.repr n) prevC8 "Gym" "Mon" "08:00" "09:00" "" true 10
      = some ([NCall.cancel "a", NCall.cancel "b"] ++ schedCalls, item) ∧
    (∀ c ∈ schedCalls, ∀ id, c ≠ NCall.cancel id) ∧
    cancelRoutineNotificationsResult (fun _ => true) prevC8 = .ok () := by
  have h := C8_saveItem_cancel_before_schedule true (fun n => "nid-" ++ Nat.repr n) (fun _ => true) prevC8
    "Gym" "Mon" "08:00" "09:00" "" 10 (by decide) (by decide) (by decide) (by decide)
  simpa [prevC8, getRoutineNotificationIds] using h

/-! ### The timetable slot parser (`import.tsx:40-76`) -/

/-- Substring test, the unanchored part of the source's regular-expression
`test`s (case handling is done by the caller). -/
def containsSub (pat s : List Char) : Bool := decide (pat <:+: s)

/-- `parseSemesterNumber` (import.tsx:40-45): the first character in `1`-`8`
(the regular expression `([1-8])`), checked to lie in 1..8. -/
def parseSemesterNumber (value : String) : Option Nat :=
  match value.data.find? (fun c => decide ('1' ≤ c ∧ c ≤ '8')) with
  | some c =>
    let n := digitVal c
    if 1 ≤ n ∧ n ≤ 8 then some n else none
  | none => none

/-- The scanner for `normalizeTime`'s anchored regular expression
`^(\d{1,2}):(\d{2})(?:\s*([AP]M))?$/i` (import.tsx:50).  Returns hour value,
minute value and the explicit meridiem (`some true` = PM) when present. -/
def scanNormalizeTime (cs : List Char) : Option (Nat × Nat × Option Bool) :=
  let step1 : Option (Nat × List Char) :=
    match cs with
    | c1 :: c2 :: rest =>
      if isDigitC c1 then
        if isDigitC c2 then some (10 * digitVal c1 + digitVal c2, rest)
        else some (digitVal c1, c2 :: rest)
      else none
    | [c1] => if isDigitC c1 then some (digitVal c1, []) else none
    | [] => none
  match step1 with
  | none => none
  | some (h, rest1) =>
    match rest1 with
    | ':' :: a :: b :: rest2 =>
      if isDigitC a ∧ isDigitC b then
        match rest2 with
        | [] => some (h, 10 * digitVal a + digitVal b, none)
        | _ =>
          match rest2.dropWhile isWS with
          | [x, m] =>
            if (x = 'A' ∨ x = 'a' ∨ x = 'P' ∨ x = 'p') ∧ (m = 'M' ∨ m = 'm') then
              some (h, 10 * digitVal a + digitVal b, some (x = 'P' ∨ x = 'p'))
            else none
          | _ => none
      else none
    | _ => none

/-- `normalizeTime` (import.tsx:49-61): the fallback meridiem is a boolean
(`true` = PM).  An unmatched value is returned trimmed and otherwise
unchanged. -/
def normalizeTime (value : String) (fallbackPM : Bool) : String :=
  match scanNormalizeTime (trimL value.data) with
  | none => trimS value
  | some (h, min, mer) =>
    let isPM := mer.getD fallbackPM
    let h2 := if isPM then (if h < 12 then h + 12 else h) else (if h = 12 then 0 else h)
    pad2 h2 ++ ":" ++ pad2 min

/-- The at-position match of `S-\d+\s*\(([^)]+)\)/i`: `S`/`s`, `-`, one or
more digits, optional whitespace, `(`, then the non-empty captured content up
to the mandatory `)`. -/
def scanSlotHead (cs : List Char) : Option (List Char) :=
  match cs with
  | c :: '-' :: rest =>
    if c = 'S' ∨ c = 's' then
      let ds := rest.takeWhile isDigitC
      if ds = [] then none
      else
        match (rest.dropWhile isDigitC).dropWhile isWS with
        | '(' :: r2 =>
          let content := r2.takeWhile (fun c => !(c = ')'))
          if content ≠ [] ∧ (r2.dropWhile (fun c => !(c = ')'))) ≠ [] then some content
          else none
        | _ => none
    else none
  | _ => none

/-- The scan of the whole token for the slot-marker pattern. -/
def findSlotContent : List Char → Option (List Char)
  | [] => none
  | c :: rest => (scanSlotHead (c :: rest)).orElse (fun _ => findSlotContent rest)

/-- At-position match of one time chunk `\d{1,2}:\d{2}(?:[AP]M)?/i` of the
slot-range pattern, returning the matched chunk text and the rest. -/
def takeTime (cs : List Char) : Option (List Char × List Char) :=
  let tryTwo : Option (List Char × List Char) :=
    match cs with
    | c1 :: c2 :: ':' :: a :: b :: rest =>
      if isDigitC c1 ∧ isDigitC c2 ∧ isDigitC a ∧ isDigitC b then
        some ([c1, c2, ':', a, b], rest)
      else none
    | _ => none
  let tryOne : Option (List Char × List Char) :=
    match cs with
    | c1 :: ':' :: a :: b :: rest =>
      if isDigitC c1 ∧ isDigitC a ∧ isDigitC b then some ([c1, ':', a, b], rest)
      else none
    | _ => none
  match tryTwo.orElse (fun _ => tryOne) with
  | none => none
  | some (chunk, rest) =>
    match rest with
    | x :: m :: rest2 =>
      if (x = 'A' ∨ x = 'a' ∨ x = 'P' ∨ x = 'p') ∧ (m = 'M' ∨ m = 'm') then
        some (chunk ++ [x, m], rest2)
      else some (chunk, rest)
    | _ => some (chunk, rest)

/-- The scan of the whitespace-stripped slot content for
`(\d{1,2}:\d{2}(?:[AP]M)?)\s*[-\u2013]\s*(\d{1,2}:\d{2}(?:[AP]M)?)/i`
(import.tsx:66), returning the two captured endpoint strings. -/
def findRange : List Char → Option (List Char × List Char)
  | [] => none
  | c :: rest =>
    let attempt : Option (List Char × List Char) :=
      match takeTime (c :: rest) with
      | some (c1, r1) =>
        match r1 with
        | d :: r2 =>
          if d = '-' ∨ d = '\u2013' then
            match takeTime r2 with
            | some (c2, _) => some (c1, c2)
            | none => none
          else none
        | [] => none
      | none => none
    attempt.orElse (fun _ => findRange rest)

/-- The trailing-meridiem tests `/PM$/i` then `/AM$/i` on the raw end time
(import.tsx:70): `some true` = PM, `some false` = AM. -/
def merSuffix (cs : List Char) : Option Bool :=
  match cs.reverse with
  | m :: x :: _ =>
    if (m = 'M' ∨ m = 'm') ∧ (x = 'P' ∨ x = 'p') then some true
    else if (m = 'M' ∨ m = 'm') ∧ (x = 'A' ∨ x = 'a') then some false
    else none
  | _ => none

/-- The endpoint normalization of `parseSlotRange` (import.tsx:70-75): the
fallback meridiem is the end time's explicit marker if any, else AM when the
raw start hour is at least 8 and PM otherwise; both endpoints are then
normalized with that fallback. -/
def slotEndpoints (startRaw endRaw : List Char) : String × String :=
  let fallbackPM : Bool :=
    match merSuffix endRaw with
    | some b => b
    | none => decide (natOfDigits (startRaw.takeWhile (fun c => !(c = ':'))) < 8)
  (normalizeTime ⟨startRaw⟩ fallbackPM, normalizeTime ⟨endRaw⟩ fallbackPM)

/-- `parseSlotRange` (import.tsx:62-76). -/
def parseSlotRange (token : String) : Option (String × String) :=
  match findSlotContent token.data with
  | none => none
  | some content =>
    let raw := content.filter (fun c => !isWS c)
    match findRange raw with
    | none => none
    | some (startRaw, endRaw) => some (slotEndpoints startRaw endRaw)

/-- The rendering of an optional explicit meridiem marker (uppercase). -/
def merChars : Option Bool → List Char
  | none => []
  | some true => ['P', 'M']
  | some false => ['A', 'M']

/-- A well-formed `H:MM`/`HH:MM` time chunk with an optional trailing
meridiem marker, as captured by the slot-range pattern. -/
def mkChunk (ds : List Char) (m1 m2 : Char) (mer : Option Bool) : List Char :=
  ds ++ ':' :: m1 :: m2 :: merChars mer

/-- The 12-hour-to-24-hour adjustment of `normalizeTime` (import.tsx:55-59):
`pm = false`: 12 becomes 0; `pm = true`: hours below 12 gain 12. -/
def adjust12 (h : Nat) (pm : Bool) : Nat :=
  if pm then (if h < 12 then h + 12 else h) else (if h = 12 then 0 else h)

theorem isDigitC_facts2 {c : Char} (h : isDigitC c = true) :
    c ≠ 'M' ∧ c ≠ 'm' ∧ c ≠ 'A' ∧ c ≠ 'a' ∧ c ≠ 'P' ∧ c ≠ 'p' := by
  unfold isDigitC at h
  split at h <;> simp_all <;> decide

theorem normalizeTime_chunk (ds : List Char) (m1 m2 : Char) (mer : Option Bool) (fb : Bool)
    (hds : (∃ d1, ds = [d1] ∧ isDigitC d1 = true) ∨
           (∃ d1 d2, ds = [d1, d2] ∧ isDigitC d1 = true ∧ isDigitC d2 = true))
    (h1 : isDigitC m1 = true) (h2 : isDigitC m2 = true) :
    normalizeTime ⟨mkChunk ds m1 m2 mer⟩ fb =
      pad2 (adjust12 (natOfDigits ds) (mer.getD fb)) ++ ":" ++
        pad2 (10 * digitVal m1 + digitVal m2) := by
  have w1 := (isDigitC_facts h1).2.2.2.2.1
  have w2 := (isDigitC_facts h2).2.2.2.2.1
  rcases hds with ⟨d1, rfl, hd1⟩ | ⟨d1, d2, rfl, hd1, hd2⟩
  · have wd1 := (isDigitC_facts hd1).2.2.2.2.1
    rcases mer with _ | b
    · simp [normalizeTime, mkChunk, merChars, trimL, trimS, scanNormalizeTime, natOfDigits,
        List.dropWhile_cons,
        adjust12, wd1, w1, w2, hd1, h1, h2,
        show isDigitC ':' = false from by decide, Nat.mul_comm]
    · cases b <;>
        simp [normalizeTime, mkChunk, merChars, trimL, trimS, scanNormalizeTime, natOfDigits,
        List.dropWhile_cons,
          adjust12, wd1, w1, w2, hd1, h1, h2,
          show isDigitC ':' = false from by decide,
          show isWS 'A' = false from by decide, show isWS 'P' = false from by decide,
          show isWS 'M' = false from by decide, Nat.mul_comm]
  · have wd1 := (isDigitC_facts hd1).2.2.2.2.1
    have wd2 := (isDigitC_facts hd2).2.2.2.2.1
    rcases mer with _ | b
    · simp [normalizeTime, mkChunk, merChars, trimL, trimS, scanNormalizeTime, natOfDigits,
        List.dropWhile_cons,
        adjust12, wd1, wd2, w1, w2, hd1, hd2, h1, h2,
        show isDigitC ':' = false from by decide, Nat.mul_comm]
    · cases b <;>
        simp [normalizeTime, mkChunk, merChars, trimL, trimS, scanNormalizeTime, natOfDigits,
        List.dropWhile_cons,
          adjust12, wd1, wd2, w1, w2, hd1, hd2, h1, h2,
          show isDigitC ':' = false from by decide,
          show isWS 'A' = false from by decide, show isWS 'P' = false from by decide,
          show isWS 'M' = false from by decide, Nat.mul_comm]


theorem merSuffix_chunk (ds : List Char) (m1 m2 : Char) (mer : Option Bool)
    (h2 : isDigitC m2 = true) :
    merSuffix (mkChunk ds m1 m2 mer) = mer := by
  have f2 := isDigitC_facts2 h2
  rcases mer with _ | b
  · unfold merSuffix mkChunk merChars
    simp [List.reverse_append, f2.1, f2.2.1]
  · cases b <;>
    · unfold merSuffix mkChunk merChars
      simp [List.reverse_append]

theorem takeWhile_chunk (ds : List Char) (m1 m2 : Char) (mer : Option Bool)
    (hds : ∀ c ∈ ds, isDigitC c = true) :
    (mkChunk ds m1 m2 mer).takeWhile (fun c => !(c = ':')) = ds := by
  unfold mkChunk
  induction ds with
  | nil => simp
  | cons d rest ih =>
    have hd := hds d (by simp)
    have hne := (isDigitC_facts hd).2.1
    simp only [List.cons_append, List.takeWhile_cons]
    rw [if_pos (by simp [hne])]
    congr 1
    exact ih (fun c hc => hds c (by simp [hc]))


/-- C10: for a slot token `S-n(start-end)`, when the end time carries no
AM/PM marker the fallback meridiem applied to both endpoints is AM when the
raw start hour is at least 8 and PM otherwise; an explicit marker on the end
time overrides that fallback for both endpoints; and an explicit marker on
an individual endpoint takes precedence over the fallback for that endpoint
(the `.getD` below).  The closing conjuncts evaluate `parseSlotRange` itself
on the three marker situations. -/
theorem C10_parseSlotRange_meridiem :
    (∀ (sh : List Char) (sm1 sm2 : Char) (sMer : Option Bool)
       (eh : List Char) (em1 em2 : Char) (eMer : Option Bool),
      ((∃ d1, sh = [d1] ∧ isDigitC d1 = true) ∨
       (∃ d1 d2, sh = [d1, d2] ∧ isDigitC d1 = true ∧ isDigitC d2 = true)) →
      ((∃ d1, eh = [d1] ∧ isDigitC d1 = true) ∨
       (∃ d1 d2, eh = [d1, d2] ∧ isDigitC d1 = true ∧ isDigitC d2 = true)) →
      isDigitC sm1 = true → isDigitC sm2 = true →
      isDigitC em1 = true → isDigitC em2 = true →
      slotEndpoints (mkChunk sh sm1 sm2 sMer) (mkChunk eh em1 em2 eMer) =
        (let fb : Bool := match eMer with
          | some b => b
          | none => decide (natOfDigits sh < 8)
         (pad2 (adjust12 (natOfDigits sh) (sMer.getD fb)) ++ ":" ++
            pad2 (10 * digitVal sm1 + digitVal sm2),
          pad2 (adjust12 (natOfDigits eh) (eMer.getD fb)) ++ ":" ++
            pad2 (10 * digitVal em1 + digitVal em2)))) ∧
    parseSlotRange "S-1(08:00-09:20)" = some ("08:00", "09:20") ∧
    parseSlotRange "S-2(2:00-3:20PM)" = some ("14:00", "15:20") ∧
    parseSlotRange "S-3(2:00-3:20)" = some ("14:00", "15:20") := by
  refine ⟨?_, by decide, by decide, by decide⟩
  intro sh sm1 sm2 sMer eh em1 em2 eMer hsh heh hs1 hs2 he1 he2
  have hshd : ∀ c ∈ sh, isDigitC c = true := by
    rcases hsh with ⟨d1, rfl, h⟩ | ⟨d1, d2, rfl, h1, h2⟩ <;> simp_all
  unfold slotEndpoints
  rw [merSuffix_chunk eh em1 em2 eMer he2, takeWhile_chunk sh sm1 sm2 sMer hshd]
  rcases eMer with _ | b
  · dsimp only
    rw [normalizeTime_chunk sh sm1 sm2 sMer _ hsh hs1 hs2,
        normalizeTime_chunk eh em1 em2 none _ heh he1 he2]
  · dsimp only
    rw [normalizeTime_chunk sh sm1 sm2 sMer _ hsh hs1 hs2,
        normalizeTime_chunk eh em1 em2 (some b) _ heh he1 he2]

/-- Witness for C10 at the concrete slot range `2:00-3:20` (no markers,
start hour below 8, so both endpoints resolve as PM). -/
theorem C10_parseSlotRange_meridiem_witness :
    slotEndpoints (mkChunk ['2'] '0' '0' none) (mkChunk ['3'] '2' '0' none) = ("14:00", "15:20") ∧
    parseSlotRange "S-3(2:00-3:20)" = some ("14:00", "15:20") := by
  have h := C10_parseSlotRange_meridiem.1 ['2'] '0' '0' none ['3'] '2' '0' none
    (Or.inl ⟨'2', rfl, by decide⟩) (Or.inl ⟨'3', rfl, by decide⟩)
    (by decide) (by decide) (by decide) (by decide)
  refine ⟨?_, C10_parseSlotRange_meridiem.2.2.2⟩
  rw [h]
  decide


/-! ### The timetable segmentation parser (`import.tsx:185-298`) -/

/-- ASCII uppercase of one character (JavaScript `toUpperCase` restricted to
the ASCII range the importer compares against). -/
def toUpperC (c : Char) : Char :=
  if 'a' ≤ c ∧ c ≤ 'z' then Char.ofNat (c.toNat - 32) else c

/-- JavaScript `String.prototype.toUpperCase`. -/
def toUpperS (s : String) : String := ⟨s.data.map toUpperC⟩

/-- `SECTION_ORDER` (import.tsx:28-39). -/
def SECTION_ORDER : List (Nat × String) :=
  [(1, "M1"), (1, "M2"), (2, "M1"), (2, "M2"), (3, "M1"), (3, "M2"),
   (4, "A"), (4, "B"), (5, "A"), (5, "B")]

/-- The `controlTokens` set (import.tsx:204-219). -/
def controlTokens : List String :=
  ["Section", "Slots", "Semester",
   "Time Table - Spring 2026 - BS Computer Science (Morning)"] ++
  DAYS_FULL ++ SECTION_ORDER.map Prod.snd ++
  ["1st Semester", "2nd Semester", "3rd Semester", "4th Semester",
   "5th Semester", "6th Semester", "7th Semester", "8th Semester"]

/-- The test `/Semester$/i.test(token)` (import.tsx:244). -/
def endsWithSemesterI (s : String) : Bool :=
  "semester".data.isSuffixOf (toLowerS s).data

/-- The room heuristic `/(CR-|CS Lab|DLD Lab|Lab|Room|Floor)/i.test(room)`
(import.tsx:268). -/
def roomPattern (room : String) : Bool :=
  let r := (toLowerS room).data
  containsSub "cr-".data r || containsSub "cs lab".data r ||
  containsSub "dld lab".data r || containsSub "lab".data r ||
  containsSub "room".data r || containsSub "floor".data r

/-- The teacher heuristic `/^(Mr\.|Ms\.|Dr\.)/i.test(candidate)`
(import.tsx:271). -/
def teacherPrefixTest (s : String) : Bool :=
  let r := (toLowerS s).data
  "mr.".data.isPrefixOf r || "ms.".data.isPrefixOf r || "dr.".data.isPrefixOf r

/-- `SECTION_ORDER.findIndex((entry, idx) => idx >= start && entry.section
=== token)` (import.tsx:254). -/
def findSectionIdxFrom (start : Nat) (token : String) : Option Nat :=
  (List.range SECTION_ORDER.length).find?
    (fun idx => decide (start ≤ idx) && ((SECTION_ORDER[idx]?).map Prod.snd == some token))

/-- The day-segmentation loop of `parseTimetablePdf` (import.tsx:222-232):
a weekday token records a segment that carries the tokens accumulated since
the previous weekday token (`pending`); trailing tokens are dropped. -/
def segmentByDaysAux (pending : List String) : List String → List (String × List String)
  | [] => []
  | t :: rest =>
    if DAYS_FULL.contains t then (t, pending) :: segmentByDaysAux [] rest
    else segmentByDaysAux (pending ++ [t]) rest

/-- The day segments of a token stream (import.tsx:222-232). -/
def segmentByDays (tokens : List String) : List (String × List String) :=
  segmentByDaysAux [] tokens

/-- The fixed inputs of one day-segment walk. -/
structure WalkCtx where
  slotTimes : List (String × String)
  targetSemester : Nat
  targetSection : String
  day : String
  toks : List String

/-- The per-segment cursor walk of `parseTimetablePdf` (import.tsx:234-295):
`i` is the loop index, `curSem`/`curSec`/`secIdx`/`slotIdx` the mutable
cursor state, `seen`/`lects` the (global) dedup set and output list. -/
def segWalkAux (ctx : WalkCtx) (i curSem : Nat) (curSec : String) (secIdx slotIdx : Nat)
    (seen : List String) (lects : List InsertLecture) : List String × List InsertLecture :=
  if h : i < ctx.toks.length then
    let token := ctx.toks[i]
    if (parseSemesterNumber token).isSome ∧ endsWithSemesterI token = true then
      segWalkAux ctx (i + 1) ((parseSemesterNumber token).getD 0) "" secIdx 0 seen lects
    else if token = "M1" ∨ token = "M2" ∨ token = "A" ∨ token = "B" then
      let resolvedIndex :=
        if (SECTION_ORDER[secIdx]?).map Prod.snd ≠ some token then
          match findSectionIdxFrom secIdx token with
          | some f => f
          | none => secIdx
        else secIdx
      let resolved := SECTION_ORDER[resolvedIndex]?
      segWalkAux ctx (i + 1) ((resolved.map Prod.fst).getD curSem) token
        (min (resolvedIndex + 1) SECTION_ORDER.length) 0 seen lects
    else
      let room := (ctx.toks[i + 1]?).getD ""
      if room = "" ∨ ctx.slotTimes.length ≤ slotIdx then
        segWalkAux ctx (i + 1) curSem curSec secIdx slotIdx seen lects
      else if controlTokens.contains token ∨ controlTokens.contains room then
        segWalkAux ctx (i + 1) curSem curSec secIdx slotIdx seen lects
      else if ¬ roomPattern room = true then
        segWalkAux ctx (i + 1) curSem curSec secIdx slotIdx seen lects
      else
        let teacherCandidate := (ctx.toks[i + 2]?).getD ""
        let hasTeacher := teacherPrefixTest teacherCandidate
        let teacher := if hasTeacher then teacherCandidate else "TBA"
        let p :=
          if ctx.targetSemester = curSem ∧
              (ctx.targetSection = "" ∨ ctx.targetSection = curSec) then
            let slot := (ctx.slotTimes[slotIdx]?).getD ("", "")
            let lec : InsertLecture :=
              { day := ctx.day, subject := token, room := room, teacher := teacher,
                startTime := slot.1, endTime := slot.2, reminderEnabled := 0 }
            let key := lec.day ++ "|" ++ lec.startTime ++ "|" ++ lec.endTime ++ "|" ++
              lec.subject ++ "|" ++ lec.room ++ "|" ++ lec.teacher
            if seen.contains key then (seen, lects) else (key :: seen, lects ++ [lec])
          else (seen, lects)
        segWalkAux ctx (i + (if hasTeacher then 2 else 1) + 1) curSem curSec secIdx
          (slotIdx + 1) p.1 p.2
  else (seen, lects)
  termination_by ctx.toks.length - i
  decreasing_by all_goals omega

/-- The fallback slot table (import.tsx:195-202). -/
def defaultSlots : List (String × String) :=
  [("08:00", "09:20"), ("09:30", "10:50"), ("11:00", "12:20"),
   ("12:30", "13:50"), ("14:00", "15:20"), ("15:30", "16:50")]

/-- `parseTimetablePdf` (import.tsx:185-298) from the token level on: the
part of the function after `extractPdfTokens`, which depends only on the
token list and the semester/section inputs.  `.error` models the thrown
`Error` for an invalid semester. -/
def parseTimetableTokens (tokens : List String) (semesterInput sectionInput : String) :
    Except String (List InsertLecture) :=
  match parseSemesterNumber semesterInput with
  | none => .error "Invalid semester. Use 1 to 8 (example: 5th)."
  | some targetSemester =>
    let targetSection := toUpperS (trimS sectionInput)
    if tokens.length = 0 then .ok []
    else
      let slots := (tokens.filterMap parseSlotRange).take 6
      let slotTimes := if 6 ≤ slots.length then slots else defaultSlots
      let p := (segmentByDays tokens).foldl
        (fun st seg => segWalkAux
          { slotTimes := slotTimes, targetSemester := targetSemester,
            targetSection := targetSection, day := seg.1, toks := seg.2 }
          0 0 "" 0 0 st.1 st.2)
        ([], [])
      .ok p.2

theorem segmentByDaysAux_no_day : ∀ (ts : List String) (acc : List String),
    (∀ t ∈ ts, DAYS_FULL.contains t = false) → segmentByDaysAux acc ts = [] := by
  intro ts
  induction ts with
  | nil => intro acc h; rfl
  | cons t rest ih =>
    intro acc h
    unfold segmentByDaysAux
    rw [if_neg (by rw [h t (by simp)]; simp)]
    exact ih _ (fun x hx => h x (by simp [hx]))

theorem segmentByDaysAux_split : ∀ (pre : List String) (acc : List String) (d : String)
    (post : List String),
    (∀ t ∈ pre, DAYS_FULL.contains t = false) → DAYS_FULL.contains d = true →
    segmentByDaysAux acc (pre ++ d :: post) = (d, acc ++ pre) :: segmentByDaysAux [] post := by
  intro pre
  induction pre with
  | nil =>
    intro acc d post hpre hd
    rw [List.nil_append]
    conv_lhs => rw [segmentByDaysAux]
    rw [if_pos (by rw [hd])]
    simp
  | cons t rest ih =>
    intro acc d post hpre hd
    rw [List.cons_append]
    conv_lhs => rw [segmentByDaysAux]
    rw [if_neg (by rw [hpre t (by simp)]; simp)]
    rw [ih (acc ++ [t]) d post (fun x hx => hpre x (by simp [hx])) hd]
    simp


/-- C2 (amended): a new per-weekday segment is recorded whenever a token
exactly equals one of the 7 canonical weekday names, but the segment carries
the tokens accumulated since the previous weekday marker — so the tokens
before the first weekday marker belong to the first recorded segment (they
are not discarded), and tokens after the last weekday marker are the ones
dropped.  For a stream with no weekday token, no segment is produced. -/
theorem C2_segmentation_amended (pre post : List String) (d : String)
    (hpre : ∀ t ∈ pre, DAYS_FULL.contains t = false)
    (hd : DAYS_FULL.contains d = true) :
    segmentByDays (pre ++ d :: post) = (d, pre) :: segmentByDays post ∧
    (∀ ts, (∀ t ∈ ts, DAYS_FULL.contains t = false) → segmentByDays ts = []) := by
  constructor
  · unfold segmentByDays
    rw [segmentByDaysAux_split pre [] d post hpre hd]
    simp
  · intro ts h
    exact segmentByDaysAux_no_day ts [] h

/-- Witness for the amended C2 at a concrete stream: the three tokens before
`"Monday"` form the `"Monday"` segment. -/
theorem C2_segmentation_amended_witness :
    segmentByDays ["5th Semester", "Math", "CR-1", "Monday"] =
      [("Monday", ["5th Semester", "Math", "CR-1"])] := by
  have h := C2_segmentation_amended ["5th Semester", "Math", "CR-1"] [] "Monday"
    (by decide) (by decide)
  simpa using h.1

/-- Counterexample to C2 as stated: in the stream below, every one of the
first three tokens precedes the first weekday token `"Monday"`, yet the
parse emits a `ScheduleItem` built from two of them (`subject = "Math"`,
`room = "CR-1"`) — tokens before the first weekday marker are assigned to
the first weekday's segment, not discarded. -/
theorem C2_segmentation_counterexample :
    ((["5th Semester", "Math", "CR-1", "Monday"].take 3).all
        (fun t => !DAYS_FULL.contains t)) = true ∧
    DAYS_FULL.contains "Monday" = true ∧
    parseTimetableTokens ["5th Semester", "Math", "CR-1", "Monday"] "5" "" =
      .ok [{ day := "Monday", subject := "Math", room := "CR-1", teacher := "TBA",
             startTime := "08:00", endTime := "09:20", reminderEnabled := 0 }] := by
  refine ⟨by decide, by decide, ?_⟩
  have hsem : parseSemesterNumber "5" = some 5 := by decide
  have hslots : ((["5th Semester", "Math", "CR-1", "Monday"].filterMap parseSlotRange).take 6)
      = [] := by decide
  have hseg : segmentByDays ["5th Semester", "Math", "CR-1", "Monday"]
      = [("Monday", ["5th Semester", "Math", "CR-1"])] := by decide
  have f9 : toUpperS (trimS "") = "" := by decide
  unfold parseTimetableTokens
  rw [hsem]
  dsimp only
  rw [f9, hslots, hseg]
  norm_num [defaultSlots]
  simp [segWalkAux, parseSemesterNumber, endsWithSemesterI, toLowerS, toLowerC, digitVal,
    controlTokens, DAYS_FULL, SECTION_ORDER, roomPattern, containsSub, teacherPrefixTest]
  decide

/-! ### The document token extractor (`import.tsx:77-184`) -/

/-- `bytesToBinary` (import.tsx:127-134): each byte becomes the character
with that code (Latin-1 view of the byte stream). -/
def bytesToBinary (bs : List Nat) : List Char := bs.map (fun b => Char.ofNat (b % 256))

/-- `binaryToBytes` (import.tsx:135-139): `charCodeAt(i) & 0xff`. -/
def binaryToBytes (cs : List Char) : List Nat := cs.map (fun c => c.toNat % 256)

/-- At-position match of `stream\r?\n` (the opener of the stream regular
expression, import.tsx:148): returns the rest after the newline. -/
def streamStart (s : List Char) : Option (List Char) :=
  if "stream".data.isPrefixOf s then
    match s.drop 6 with
    | '\r' :: '\n' :: r => some r
    | '\n' :: r => some r
    | _ => none
  else none

/-- The lazy search for the closing `\r?\nendstream`: returns the captured
stream content and the rest after `endstream`. -/
def splitEnd : List Char → Option (List Char × List Char)
  | [] => none
  | a :: rest =>
    if a = '\r' ∧ ('\n' :: "endstream".data).isPrefixOf rest then
      some ([], rest.drop 10)
    else if a = '\n' ∧ "endstream".data.isPrefixOf rest then
      some ([], rest.drop 9)
    else
      (splitEnd rest).map (fun p => (a :: p.1, p.2))

theorem prefixOf_length_le {l₁ l₂ : List Char} (h : l₁.isPrefixOf l₂ = true) :
    l₁.length ≤ l₂.length := by
  have hp := List.isPrefixOf_iff_prefix.mp h
  exact hp.length_le

theorem prefixOf_ex {l₁ l₂ : List Char} (h : l₁.isPrefixOf l₂ = true) :
    ∃ t, l₁ ++ t = l₂ := by
  exact List.isPrefixOf_iff_prefix.mp h

theorem streamStart_length {s r : List Char} (h : streamStart s = some r) :
    r.length + 7 ≤ s.length := by
  unfold streamStart at h
  split at h
  · split at h
    · rename_i heq
      injection h with h
      subst h
      have := congrArg List.length heq
      simp at this
      omega
    · rename_i heq
      injection h with h
      subst h
      have := congrArg List.length heq
      simp at this
      omega
    · cases h
  · cases h

theorem splitEnd_length : ∀ {l : List Char} {p : List Char × List Char},
    splitEnd l = some p → p.2.length + 10 ≤ l.length := by
  intro l
  induction l with
  | nil => intro p h; cases h
  | cons a rest ih =>
    intro p h
    unfold splitEnd at h
    split at h
    · rename_i hc
      have hlen : 10 ≤ rest.length := by
        have := prefixOf_length_le hc.2
        simpa using this
      injection h with h
      subst h
      simp
      omega
    · split at h
      · rename_i hc
        have hlen : 9 ≤ rest.length := by
          have := prefixOf_length_le hc.2
          simpa using this
        injection h with h
        subst h
        simp
        omega
      · cases hr : splitEnd rest with
        | none => rw [hr] at h; cases h
        | some p' =>
          rw [hr] at h
          simp only [Option.map] at h
          injection h with h
          subst h
          have := ih hr
          simp
          omega

/-- A delimited content-stream region: the (up to) 500 bytes of object
header preceding the match, and the raw stream content. -/
structure PdfRegion where
  header : List Char
  content : List Char

/-- The global `streamRegex.exec` loop (import.tsx:148-153): all
non-overlapping `stream\r?\n(...)\r?\nendstream` regions with their
500-byte header windows, scanning left to right. -/
def findRegions (all : List Char) : List Char → Nat → List PdfRegion
  | [], _ => []
  | c :: rest, pos =>
    match h1 : streamStart (c :: rest) with
    | some afterNL =>
      match h2 : splitEnd afterNL with
      | some p =>
        let start := pos - 500
        let header := (all.drop start).take (pos - start)
        let consumed := (c :: rest).length - p.2.length
        { header := header, content := p.1 } :: findRegions all p.2 (pos + consumed)
      | none => []
    | none => findRegions all rest (pos + 1)
  termination_by s _ => s.length
  decreasing_by
  · have ha := streamStart_length h1
    have hb := splitEnd_length h2
    simp at ha ⊢
    omega
  · simp


/-- The escape table of `decodePdfLiteralString`; `escapes[next] ?? next`
maps an unknown escape to the character itself. -/
def pdfEscape (c : Char) : Char :=
  match c with
  | 'n' => '\n'
  | 'r' => '\r'
  | 't' => '\t'
  | 'b' => '\x08'
  | 'f' => '\x0c'
  | _ => c

/-- `decodePdfLiteralString` (import.tsx:77-109) on the character list
between the parentheses.  The octal branch keeps the source's quirk of
testing `raw[i+2]` and `raw[i+3]` independently and advancing by the
number of octal digits collected. -/
def decodePdfLiteralString : List Char → List Char
  | [] => []
  | c :: rest =>
    if c ≠ '\\' then c :: decodePdfLiteralString rest
    else
      match rest with
      | [] => []
      | next :: rest2 =>
        if isOctalC next then
          let extra := (match rest2[0]? with
              | some c2 => if isOctalC c2 then [c2] else []
              | none => []) ++
            (match rest2[1]? with
              | some c3 => if isOctalC c3 then [c3] else []
              | none => [])
          Char.ofNat (octValue (next :: extra)) ::
            decodePdfLiteralString (rest2.drop extra.length)
        else
          pdfEscape next :: decodePdfLiteralString rest2
  termination_by l => l.length
  decreasing_by
  all_goals simp [List.length_drop]
  all_goals omega

/-- The byte-building loop of `decodePdfHexString`: consecutive digit
pairs, `parseInt(slice(i, i+2), 16)`. -/
def hexPairs : List Char → List Nat
  | a :: b :: rest => (16 * hexVal a + hexVal b) :: hexPairs rest
  | _ => []

/-- The UTF-16BE branch: code units from consecutive byte pairs (a unit
that is not a scalar value falls back to `Char.ofNat`'s default). -/
def utf16be : List Nat → List Char
  | a :: b :: rest => Char.ofNat ((a % 256) * 256 + b % 256) :: utf16be rest
  | _ => []

/-- `decodePdfHexString` (import.tsx:110-126) on the captured characters
between `<` and `>`. -/
def decodePdfHexString (hexs : List Char) : List Char :=
  let clean := hexs.filter isHexDigitC
  if clean.length < 2 then []
  else
    let padded := if clean.length % 2 = 0 then clean else clean ++ ['0']
    match hexPairs padded with
    | 0xfe :: 0xff :: rest => utf16be rest
    | bytes => bytes.map Char.ofNat

/-- State for `replace(/\s+/g, ' ')`: the flag records whether the
previous character was whitespace (the run already emitted a space). -/
def collapseWSAux : Bool → List Char → List Char
  | _, [] => []
  | inWs, c :: rest =>
    if isWS c then
      (if inWs then collapseWSAux true rest else ' ' :: collapseWSAux true rest)
    else c :: collapseWSAux false rest

/-- `normalizeTextToken` (import.tsx:46-48): controls to spaces, collapse
whitespace runs, trim. -/
def normalizeTextToken (s : String) : String :=
  trimS ⟨collapseWSAux false (s.data.map (fun c => if c.toNat ≤ 0x1f then ' ' else c))⟩

/-- `\s*` followed by a fixed keyword: the whitespace star cannot trade
characters with a keyword that starts with a non-whitespace character, so
the match point is exactly the end of the whitespace run. -/
def skipWsThenKw (kw : List Char) (l : List Char) : Option (List Char) :=
  if kw.isPrefixOf (l.dropWhile isWS) then some ((l.dropWhile isWS).drop kw.length) else none

theorem skipWsThenKw_le {kw l r : List Char} (h : skipWsThenKw kw l = some r) :
    r.length ≤ l.length := by
  unfold skipWsThenKw at h
  split at h
  · injection h with h
    subst h
    have h1 : (l.dropWhile isWS).length ≤ l.length :=
      List.IsSuffix.length_le (List.dropWhile_suffix isWS)
    simp [List.length_drop]
    omega
  · cases h

/-- Lazy scan for the closing `ET` of a `BT[\s\S]*?ET` block: returns the
content before the first `ET` and the rest after it. -/
def takeToET : List Char → Option (List Char × List Char)
  | [] => none
  | c :: rest =>
    if c = 'E' ∧ rest.head? = some 'T' then some ([], rest.tail)
    else (takeToET rest).map (fun p => (c :: p.1, p.2))

theorem takeToET_length : ∀ {l : List Char} {p : List Char × List Char},
    takeToET l = some p → p.2.length + 2 ≤ l.length := by
  intro l
  induction l with
  | nil => intro p h; cases h
  | cons c rest ih =>
    intro p h
    unfold takeToET at h
    split at h
    · rename_i hc
      injection h with h
      subst h
      cases rest with
      | nil => cases hc.2
      | cons d tl => simp
    · cases hr : takeToET rest with
      | none => rw [hr] at h; cases h
      | some p' =>
        rw [hr] at h
        simp only [Option.map] at h
        injection h with h
        subst h
        have := ih hr
        simp
        omega

/-- The `decoded.match(/BT[\s\S]*?ET/g)` loop: every non-overlapping
`BT...ET` block (full matched text), scanning left to right. -/
def btBlocksAux : List Char → List (List Char)
  | [] => []
  | c :: rest =>
    if c = 'B' ∧ rest.head? = some 'T' then
      match h : takeToET rest.tail with
      | some p => (c :: 'T' :: (p.1 ++ ['E', 'T'])) :: btBlocksAux p.2
      | none => []
    else btBlocksAux rest
  termination_by l => l.length
  decreasing_by
  · have h2 := takeToET_length h
    simp only [List.length_tail] at h2
    simp
    omega
  · simp

/-- Lazy scan for `]\s*TJ` closing a `\[(.*?)\]\s*TJ` match (dotall): the
array content before the first `]` that is followed by optional
whitespace and `TJ`, and the rest after `TJ`. -/
def takeToTJ : List Char → Option (List Char × List Char)
  | [] => none
  | c :: rest =>
    if c = ']' then
      match skipWsThenKw ['T', 'J'] rest with
      | some r => some ([], r)
      | none => (takeToTJ rest).map (fun p => (c :: p.1, p.2))
    else (takeToTJ rest).map (fun p => (c :: p.1, p.2))

theorem takeToTJ_lt : ∀ {l : List Char} {p : List Char × List Char},
    takeToTJ l = some p → p.2.length < l.length := by
  intro l
  induction l with
  | nil => intro p h; cases h
  | cons c rest ih =>
    intro p h
    unfold takeToTJ at h
    split at h
    · split at h
      · rename_i hk
        injection h with h
        subst h
        have := skipWsThenKw_le hk
        simp
        omega
      · cases hr : takeToTJ rest with
        | none => rw [hr] at h; cases h
        | some p' =>
          rw [hr] at h
          simp only [Option.map] at h
          injection h with h
          subst h
          have := ih hr
          simp
          omega
    · cases hr : takeToTJ rest with
      | none => rw [hr] at h; cases h
      | some p' =>
        rw [hr] at h
        simp only [Option.map] at h
        injection h with h
        subst h
        have := ih hr
        simp
        omega

/-- `block.matchAll(/\[(.*?)\]\s*TJ/gs)`: the captured array contents in
order.  A `[` with no `]\s*TJ` terminator anywhere after it ends the scan,
since no later start position can complete a match either. -/
def tjArraysAux : List Char → List (List Char)
  | [] => []
  | c :: rest =>
    if c = '[' then
      match h : takeToTJ rest with
      | some p => p.1 :: tjArraysAux p.2
      | none => []
    else tjArraysAux rest
  termination_by l => l.length
  decreasing_by
  · have := takeToTJ_lt h
    simp
    omega
  · simp

/-- Scanner for the literal-string body `(?:\\.|[^\\()])*\)` after an
opening parenthesis.  The dot has no dotall flag, so an escaped newline
fails the alternation; an unescaped parenthesis or a trailing backslash
also fails, making the engine advance its start position by one. -/
def takeLiteral : List Char → Option (List Char × List Char)
  | [] => none
  | c :: rest =>
    if c = ')' then some ([], rest)
    else if c = '(' then none
    else if c = '\\' then
      match rest.head? with
      | none => none
      | some d =>
        if d = '\n' ∨ d = '\r' then none
        else (takeLiteral rest.tail).map (fun p => (c :: d :: p.1, p.2))
    else (takeLiteral rest).map (fun p => (c :: p.1, p.2))
  termination_by l => l.length
  decreasing_by
  all_goals simp [List.length_tail]
  all_goals omega

theorem takeLiteral_lt_aux : ∀ (n : Nat) {l : List Char}, l.length ≤ n →
    ∀ {p : List Char × List Char}, takeLiteral l = some p → p.2.length < l.length := by
  intro n
  induction n with
  | zero =>
    intro l hl p h
    cases l with
    | nil => simp [takeLiteral] at h
    | cons c rest => simp at hl
  | succ n ih =>
    intro l hl p h
    cases l with
    | nil => simp [takeLiteral] at h
    | cons c rest =>
      have hl2 : rest.length ≤ n := by simp at hl; omega
      unfold takeLiteral at h
      split at h
      · injection h with h
        subst h
        simp
      · split at h
        · cases h
        · split at h
          · split at h
            · cases h
            · split at h
              · cases h
              · cases hr : takeLiteral rest.tail with
                | none => rw [hr] at h; cases h
                | some p' =>
                  rw [hr] at h
                  simp only [Option.map] at h
                  injection h with h
                  subst h
                  have hl3 : rest.tail.length ≤ n := by
                    simp only [List.length_tail]
                    omega
                  have h4 := ih hl3 hr
                  simp only [List.length_tail] at h4
                  simp
                  omega
          · cases hr : takeLiteral rest with
            | none => rw [hr] at h; cases h
            | some p' =>
              rw [hr] at h
              simp only [Option.map] at h
              injection h with h
              subst h
              have := ih hl2 hr
              simp
              omega

theorem takeLiteral_lt {l : List Char} {p : List Char × List Char}
    (h : takeLiteral l = some p) : p.2.length < l.length :=
  takeLiteral_lt_aux l.length le_rfl h

/-- `arrayMatch[1].matchAll(/\((?:\\.|[^\\()])*\)/g)`: the literal-string
bodies (between the parentheses) in order; a failed start advances one
character. -/
def literalsAux : List Char → List (List Char)
  | [] => []
  | c :: rest =>
    if c = '(' then
      match h : takeLiteral rest with
      | some p => p.1 :: literalsAux p.2
      | none => literalsAux rest
    else literalsAux rest
  termination_by l => l.length
  decreasing_by
  · have := takeLiteral_lt h
    simp
    omega
  · simp
  · simp

theorem hexes_dec {rest after : List Char} {c c2 : Char} {f : Char → Bool}
    (h : rest.dropWhile f = c2 :: after) : after.length < (c :: rest).length := by
  have h1 : (rest.dropWhile f).length ≤ rest.length :=
    List.IsSuffix.length_le (List.dropWhile_suffix f)
  rw [h] at h1
  simp at h1 ⊢
  omega

/-- `arrayMatch[1].matchAll(/<([0-9a-fA-F\s]+)>/g)`: each `<` followed by
a nonempty run of hex-or-whitespace characters and `>` yields the run;
otherwise the scan advances one character. -/
def hexesAux : List Char → List (List Char)
  | [] => []
  | c :: rest =>
    if c = '<' then
      match h : rest.dropWhile (fun x => isHexDigitC x || isWS x) with
      | '>' :: after =>
        if (rest.takeWhile (fun x => isHexDigitC x || isWS x)).isEmpty then hexesAux rest
        else rest.takeWhile (fun x => isHexDigitC x || isWS x) :: hexesAux after
      | _ => hexesAux rest
    else hexesAux rest
  termination_by l => l.length
  decreasing_by
  · simp
  · exact hexes_dec h
  · simp
  · simp

/-- `block.matchAll(/\((?:\\.|[^\\()])*\)\s*Tj/g)`: the literal bodies of
`(...) Tj` operators in order (the source strips the `)\s*Tj` tail and
the leading parenthesis before decoding). -/
def tjLiteralsAux : List Char → List (List Char)
  | [] => []
  | c :: rest =>
    if c = '(' then
      match h : takeLiteral rest with
      | some p =>
        match h2 : skipWsThenKw ['T', 'j'] p.2 with
        | some after => p.1 :: tjLiteralsAux after
        | none => tjLiteralsAux rest
      | none => tjLiteralsAux rest
    else tjLiteralsAux rest
  termination_by l => l.length
  decreasing_by
  · have ha := takeLiteral_lt h
    have hb := skipWsThenKw_le h2
    simp
    omega
  · simp
  · simp
  · simp

/-- The per-block token emission (import.tsx:166-182): first every `TJ`
array (literal parts then hex parts, joined, normalized, kept if
nonempty), then every `Tj` literal. -/
def blockTokens (block : List Char) : List String :=
  ((tjArraysAux block).filterMap (fun inner =>
    let parts := (literalsAux inner).map decodePdfLiteralString ++
      (hexesAux inner).map decodePdfHexString
    let normalized := normalizeTextToken ⟨parts.flatten⟩
    if normalized = "" then none else some normalized)) ++
  ((tjLiteralsAux block).filterMap (fun content =>
    let normalized := normalizeTextToken ⟨decodePdfLiteralString content⟩
    if normalized = "" then none else some normalized))

/-- One region's tokens (import.tsx:154-183).  `u` is the `unzlibSync`
oracle: `none` models a decompression throw, which the `catch` turns into
skipping the region (`continue`). -/
def regionTokens (u : List Nat → Option (List Nat)) (r : PdfRegion) : List String :=
  let streamBytes := binaryToBytes r.content
  let decodedBytes? :=
    if containsSub "/FlateDecode".data r.header then u streamBytes else some streamBytes
  match decodedBytes? with
  | none => []
  | some db => (btBlocksAux (bytesToBinary db)).flatMap blockTokens

/-- Tokens of a region list, in order. -/
def tokensOfRegions (u : List Nat → Option (List Nat)) (rs : List PdfRegion) : List String :=
  rs.flatMap (regionTokens u)

/-- `extractPdfTokens` (import.tsx:146-184), parameterized by the
`unzlibSync` oracle. -/
def extractPdfTokens (u : List Nat → Option (List Nat)) (bytes : List Nat) : List String :=
  tokensOfRegions u (findRegions (bytesToBinary bytes) (bytesToBinary bytes) 0)

theorem splitEnd_marker : ∀ {l : List Char} {p : List Char × List Char},
    splitEnd l = some p → "endstream".data <:+: l := by
  intro l
  induction l with
  | nil => intro p h; cases h
  | cons a rest ih =>
    intro p h
    unfold splitEnd at h
    split at h
    · rename_i hc
      obtain ⟨t, ht⟩ := prefixOf_ex hc.2
      refine List.infix_cons ⟨['\n'], t, ?_⟩
      simpa using ht
    · split at h
      · rename_i hc
        obtain ⟨t, ht⟩ := prefixOf_ex hc.2
        refine List.infix_cons ⟨[], t, ?_⟩
        simpa using ht
      · cases hr : splitEnd rest with
        | none => rw [hr] at h; cases h
        | some p' =>
          exact List.infix_cons (ih hr)

theorem streamStart_suffix {s r : List Char} (h : streamStart s = some r) :
    r <:+ s := by
  unfold streamStart at h
  split at h
  · split at h
    · rename_i heq
      injection h with h
      rw [← h]
      refine List.IsSuffix.trans ?_ (List.drop_suffix 6 s)
      rw [heq]
      exact (List.suffix_cons _ _).trans (List.suffix_cons _ _)
    · rename_i heq
      injection h with h
      rw [← h]
      refine List.IsSuffix.trans ?_ (List.drop_suffix 6 s)
      rw [heq]
      exact List.suffix_cons _ _
    · cases h
  · cases h

theorem findRegions_no_marker (all : List Char) :
    ∀ (s : List Char) (pos : Nat), ¬ ("endstream".data <:+: s) →
      findRegions all s pos = [] := by
  intro s
  induction s with
  | nil => intro pos h; rw [findRegions]
  | cons c rest ih =>
    intro pos h
    rw [findRegions]
    split
    · rename_i afterNL h1
      split
      · rename_i p h2
        exact absurd ((splitEnd_marker h2).trans (streamStart_suffix h1).isInfix) h
      · rfl
    · exact ih (pos + 1) (fun hi => h (List.infix_cons hi))


/-- **C7**: The document token extractor is total: it is a function on byte
sequences (with `unzlibSync` as an `Option`-valued oracle `u`, `none`
modelling a decompression throw) and so never throws; a byte stream that
contains no `endstream` marker — in particular one with no
stream/endstream pair — yields the empty token list; region token lists
concatenate in order, and a FlateDecode region whose decompression fails
contributes no tokens, so extraction continues with the remaining
regions. -/
theorem C7_extractPdfTokens_total (u : List Nat → Option (List Nat)) (bytes : List Nat) :
    (¬ ("endstream".data <:+: bytesToBinary bytes) → extractPdfTokens u bytes = []) ∧
    (∀ (r : PdfRegion) (rs : List PdfRegion),
      tokensOfRegions u (r :: rs) = regionTokens u r ++ tokensOfRegions u rs) ∧
    (∀ r : PdfRegion, containsSub "/FlateDecode".data r.header = true →
      u (binaryToBytes r.content) = none → regionTokens u r = []) := by
  refine ⟨?_, ?_, ?_⟩
  · intro h
    unfold extractPdfTokens
    rw [findRegions_no_marker _ _ _ h]
    rfl
  · intro r rs
    simp [tokensOfRegions]
  · intro r h1 h2
    simp only [regionTokens, h1, if_true, h2]

theorem C7_extractPdfTokens_total_witness :
    extractPdfTokens (fun _ => none) [104, 101, 108, 108, 111] = [] ∧
    regionTokens (fun _ => none) { header := "/FlateDecode".data, content := [] } = [] := by
  have h := C7_extractPdfTokens_total (fun _ => none) [104, 101, 108, 108, 111]
  exact ⟨h.1 (by decide),
    h.2.2 { header := "/FlateDecode".data, content := [] } (by decide) rfl⟩

end Scheduler
